import Mathlib

/-!
Shallow embedding of the battleship rules engine (src/game.rs) and proofs
about its specification claims.

Modelling conventions:
* Rust `usize`/`u16` values are `Nat` (no arithmetic here can overflow a
  machine word on the 10x10 grid, and `turn` / shot counts stay tiny).
* `Vec<Vec<Position>>` is `List (List Position)`; out-of-bounds indexing,
  which panics in Rust, reads a placeholder cell here, and every theorem that
  depends on a cell carries the in-bounds hypotheses under which Rust does
  not panic.
* `BTreeSet<Coordinate>` values are modelled by their sorted iteration
  order: a list that is strictly increasing in the lexicographic coordinate
  order (`IsShotSet`).
* `BTreeMap<Coordinate, Status>` (the firing response) is an association
  list with replace-on-insert semantics (`insertResp`); only lookups and the
  entry set matter to the claims, not the sorted iteration order, because
  `update_status` writes each key's cell exactly once.
* Randomness (uuid generation, rotation choice, ship placement retries, bot
  candidate sampling) is abstracted into parameters: constructors take the
  values the RNG produced, and `Reachable` / `InitialSelfBoard` quantify over
  exactly the outcomes the Rust code can produce.
* Returned user-facing message strings are not modelled; no claim mentions
  them.  The unused `firing_status` map of `Board` (never read or written
  after construction) is omitted.
-/

namespace Battleship

/-- Cell status, from `enum Status` in src/game.rs. -/
inductive Status where
  | Live
  | Miss
  | Hit
  | Kill
  | Space
deriving DecidableEq, Repr

/-- `type Coordinate = (usize, usize)`. -/
abbrev Coordinate := Nat × Nat

/-- Lexicographic strict order on coordinates: the key order of
`BTreeSet<Coordinate>` / `BTreeMap<Coordinate, _>`. -/
def coordLt (a b : Coordinate) : Bool :=
  a.1 < b.1 || (a.1 == b.1 && a.2 < b.2)

/-- Strict ascending order of adjacent elements. -/
def isStrictAsc : List Coordinate → Bool
  | [] => true
  | [_] => true
  | a :: b :: rest => coordLt a b && isStrictAsc (b :: rest)

/-- A `BTreeSet<Coordinate>` presented in iteration order: strictly
increasing, hence duplicate-free. -/
def IsShotSet (shots : List Coordinate) : Prop :=
  isStrictAsc shots = true

instance (shots : List Coordinate) : Decidable (IsShotSet shots) :=
  inferInstanceAs (Decidable (isStrictAsc shots = true))

/-- One grid cell, from `struct Position`. -/
structure Position where
  status : Status
  coordinate : Coordinate
  ship_id : Option String
deriving DecidableEq, Repr

/-- `Position::new`: an empty, unowned cell. -/
def Position.new (c : Coordinate) : Position :=
  { status := Status.Space, coordinate := c, ship_id := none }

/-- The four ship shapes, from `enum ShipType`. -/
inductive ShipType where
  | X
  | V
  | H
  | I
deriving DecidableEq, Repr

/-- `type ShipShape = [[Status; 3]; 3]`, viewed as a function matrix. -/
abbrev ShipShape := Fin 3 → Fin 3 → Status

/-- Builds a 3x3 shape from three rows. -/
def shape3 (r0 r1 r2 : Fin 3 → Status) : ShipShape :=
  fun i => if i = 0 then r0 else if i = 1 then r1 else r2

/-- Builds one row of a shape. -/
def row3 (a b c : Status) : Fin 3 → Status :=
  fun j => if j = 0 then a else if j = 1 then b else c

/-- `transpose`: writes `out[y][x] = inp[x][y]`. -/
def transpose (inp : ShipShape) : ShipShape :=
  fun i j => inp j i

/-- `reverse_cols_of_rows`: writes `out[x][len-1-y] = inp[x][y]`, i.e. the
entry at column `j` comes from column `len-1-j`. -/
def reverse_cols_of_rows (inp : ShipShape) : ShipShape :=
  fun i j => inp i j.rev

/-- `reverse_rows_of_cols`: writes `out[len-1-x][y] = inp[x][y]`. -/
def reverse_rows_of_cols (inp : ShipShape) : ShipShape :=
  fun i j => inp i.rev j

/-- The fixed base template of each ship type (`ShipType::get_shape`,
before the rotation match). -/
def ShipType.base : ShipType → ShipShape
  | ShipType.X => shape3 (row3 Status.Live Status.Space Status.Live)
      (row3 Status.Space Status.Live Status.Space)
      (row3 Status.Live Status.Space Status.Live)
  | ShipType.V => shape3 (row3 Status.Live Status.Space Status.Live)
      (row3 Status.Live Status.Space Status.Live)
      (row3 Status.Space Status.Live Status.Space)
  | ShipType.H => shape3 (row3 Status.Live Status.Space Status.Live)
      (row3 Status.Live Status.Live Status.Live)
      (row3 Status.Live Status.Space Status.Live)
  | ShipType.I => shape3 (row3 Status.Space Status.Live Status.Space)
      (row3 Status.Space Status.Live Status.Space)
      (row3 Status.Space Status.Live Status.Space)

/-- `ShipType::get_shape`: the Rust `match rotation` with literal arms
`180 / 270 / 360 / _`, rendered as the equivalent exclusive if-chain. -/
def ShipType.get_shape (t : ShipType) (rotation : Nat) : ShipShape :=
  if rotation = 180 then reverse_cols_of_rows (transpose t.base)
  else if rotation = 270 then reverse_rows_of_cols (reverse_cols_of_rows t.base)
  else if rotation = 360 then reverse_rows_of_cols (transpose t.base)
  else t.base

/-- `ShipType::get_initial_ships`. -/
def ShipType.get_initial_ships : List ShipType :=
  [ShipType.X, ShipType.V, ShipType.H, ShipType.I]

/-- A ship, from `struct Ship`.  The uuid and the randomly chosen rotation
are parameters of the construction sites. -/
structure Ship where
  id : String
  rotation : Nat
  alive : Bool
  ship_type : ShipType
deriving DecidableEq, Repr

/-- `Ship::shape`. -/
def Ship.shape (s : Ship) : ShipShape :=
  s.ship_type.get_shape s.rotation

/-- Modelled from the spec: a quarter turn clockwise of a square matrix,
`R(M)[i][j] = M[n-1-j][i]`.  Used only to compare `get_shape`'s
compositions with the four rotation images the spec describes. -/
def rotateCW (m : ShipShape) : ShipShape :=
  fun i j => m j.rev i

/-- Modelled from the spec: a half turn of a square matrix. -/
def rotateHalf (m : ShipShape) : ShipShape :=
  fun i j => m i.rev j.rev

/-- Modelled from the spec: three quarter turns clockwise of a square
matrix, `R(M)[i][j] = M[j][n-1-i]`. -/
def rotateCCW (m : ShipShape) : ShipShape :=
  fun i j => m j i.rev

/-- `pub const ROWS: usize = 10`. -/
def ROWS : Nat := 10

/-- `pub const COLS: usize = 10`. -/
def COLS : Nat := 10

/-- `const SHIP_SIZE: usize = 3`. -/
def SHIP_SIZE : Nat := 3

/-- The grid of a board: `Vec<Vec<Position>>`. -/
abbrev Grid := List (List Position)

/-- Placeholder returned for an out-of-bounds read; Rust panics instead, so
claims about a concrete cell carry in-bounds hypotheses. -/
def defaultPosition : Position := Position.new (0, 0)

/-- `positions[c.0][c.1]` as a read. -/
def Grid.getPos (g : Grid) (c : Coordinate) : Position :=
  (g.getD c.1 []).getD c.2 defaultPosition

/-- Replaces the whole cell `positions[c.0][c.1]`. -/
def Grid.setPos (g : Grid) (c : Coordinate) (p : Position) : Grid :=
  g.set c.1 ((g.getD c.1 []).set c.2 p)

/-- `positions[c.0][c.1].status = st`. -/
def Grid.setStatus (g : Grid) (c : Coordinate) (st : Status) : Grid :=
  g.setPos c { g.getPos c with status := st }

/-- A coordinate that the 10x10 grid contains. -/
def InBounds (c : Coordinate) : Prop :=
  c.1 < ROWS ∧ c.2 < COLS

instance (c : Coordinate) : Decidable (InBounds c) :=
  inferInstanceAs (Decidable (c.1 < ROWS ∧ c.2 < COLS))

/-- `Ship::is_overlapping`.  Note that the source iterates over every entry
of the 3x3 shape (`for _ in row`) and tests the board cell under it without
consulting the shape cell's own status. -/
def Ship.is_overlapping (s : Ship) (positions : Grid) (start_cord : Coordinate) : Bool :=
  if !positions.isEmpty && !(positions.headD []).isEmpty then
    let _shape := s.shape
    (List.finRange 3).any fun i =>
      (List.finRange 3).any fun j =>
        (positions.getPos (start_cord.1 + i.1, start_cord.2 + j.1)).status == Status.Live
  else
    false

/-- `Ship::draw`: stamps every `Live` cell of the rotated shape onto the
grid, marking it with this ship's id; returns the new grid and whether at
least one cell was drawn. -/
def Ship.draw (s : Ship) (positions : Grid) (start_cord : Coordinate) : Grid × Bool :=
  if !positions.isEmpty && !(positions.headD []).isEmpty then
    let shape := s.shape
    (List.finRange 3).foldl
      (fun acc i =>
        (List.finRange 3).foldl
          (fun (acc : Grid × Bool) j =>
            if shape i j == Status.Live then
              (acc.1.setPos (start_cord.1 + i.1, start_cord.2 + j.1)
                { acc.1.getPos (start_cord.1 + i.1, start_cord.2 + j.1) with
                    status := Status.Live, ship_id := some s.id },
               true)
            else acc)
          acc)
      (positions, false)
  else
    (positions, false)

/-- A board, from `struct Board` (the never-consulted `firing_status` map
is omitted). -/
structure Board where
  positions : Grid
  ships : List Ship
deriving DecidableEq, Repr

/-- `Board::ships_alive`. -/
def Board.ships_alive (b : Board) : List Ship :=
  b.ships.filter (fun s => s.alive)

/-- `Board::find_ship`. -/
def Board.find_ship (b : Board) (id : String) : Option Ship :=
  b.ships.find? (fun s => s.id == id)

/-- `Board::positions()`: the grid flattened row-major. -/
def Board.positionsFlat (b : Board) : List Position :=
  b.positions.flatten

/-- `Board::pos_by_ship`. -/
def Board.pos_by_ship (b : Board) (id : String) : List Position :=
  b.positionsFlat.filter (fun p => p.ship_id == some id)

/-- `Board::alive_pos_by_ship`. -/
def Board.alive_pos_by_ship (b : Board) (id : String) : List Position :=
  (b.pos_by_ship id).filter (fun p => p.status == Status.Live)

/-- `Board::find_ship_mut` followed by `ship.alive = false`: flips the
first ship with this id, if any, leaving the rest of the list unchanged. -/
def setAliveFalseFirst : List Ship → String → List Ship
  | [], _ => []
  | s :: rest, id =>
      if s.id == id then { s with alive := false } :: rest
      else s :: setAliveFalseFirst rest id

/-- The firing response: `BTreeMap<Coordinate, Status>` as an association
list with unique keys. -/
abbrev FiringResponse := List (Coordinate × Status)

/-- `BTreeMap::insert`: replace the binding if the key is present,
otherwise add it. -/
def insertResp : FiringResponse → Coordinate → Status → FiringResponse
  | [], c, s => [(c, s)]
  | e :: rest, c, s =>
      if e.1 == c then (c, s) :: rest else e :: insertResp rest c s

/-- `BTreeMap::get`. -/
def lookupResp (r : FiringResponse) (c : Coordinate) : Option Status :=
  (r.find? (fun e => e.1 == c)).map (fun e => e.2)

/-- The body of the `for shot in shots` loop of `Board::take_fire`,
threading the mutated board and the response map. -/
def takeFireShot (st : Board × FiringResponse) (shot : Coordinate) : Board × FiringResponse :=
  let b := st.1
  let resp := st.2
  let pos := b.positions.getPos shot
  let step : Status × Board × FiringResponse :=
    if pos.status == Status.Live then
      match pos.ship_id with
      | some id =>
          if (b.alive_pos_by_ship id).length ≤ 1 then
            if (b.find_ship id).isSome then
              let b' : Board := { b with ships := setAliveFalseFirst b.ships id }
              let resp' := (b'.pos_by_ship id).foldl
                (fun r p => insertResp r p.coordinate Status.Kill) resp
              (Status.Kill, b', resp')
            else (Status.Hit, b, resp)
          else (Status.Hit, b, resp)
      | none => (Status.Hit, b, resp)
    else (Status.Miss, b, resp)
  let status := step.1
  let b1 := step.2.1
  let resp1 := step.2.2
  let b2 : Board :=
    if pos.status ≠ Status.Hit ∧ pos.status ≠ Status.Kill then
      { b1 with positions := b1.positions.setStatus shot status }
    else b1
  (b2, insertResp resp1 shot status)

/-- `Board::take_fire`: resolves the shots in iteration (sorted) order and
reports whether the board has lost. -/
def Board.take_fire (b : Board) (shots : List Coordinate) : Board × FiringResponse × Bool :=
  let res := shots.foldl takeFireShot (b, [])
  (res.1, res.2, res.1.ships_alive.isEmpty)

/-- `Board::update_status` restricted to its board effect (the counting and
the message string it also builds are not modelled): each response entry
overwrites its tracked cell when that cell is still unrevealed
(`Space`/`Live`) or when the incoming status is `Kill`. -/
def Board.update_status (b : Board) (resp : FiringResponse) : Board :=
  resp.foldl
    (fun b e =>
      let p := b.positions.getPos e.1
      if p.status == Status.Space || p.status == Status.Live || e.2 == Status.Kill then
        { b with positions := b.positions.setStatus e.1 e.2 }
      else b)
    b

/-- `enum Rule`. -/
inductive Rule where
  | Default
  | Fury
  | Charge
deriving DecidableEq, Repr

/-- `enum Difficulty`. -/
inductive Difficulty where
  | Easy
  | Hard
deriving DecidableEq, Repr

/-- A player, from `struct Player`: `boards.1` is the own (self) board,
`boards.2` the opponent-tracking board. -/
structure Player where
  is_bot : Bool
  boards : Board × Board
deriving DecidableEq, Repr

/-- `Player::player_board`. -/
def Player.player_board (p : Player) : Board := p.boards.1

/-- `Player::opponent_board`. -/
def Player.opponent_board (p : Player) : Board := p.boards.2

/-- The game, from `struct Game`: `players.1` is index 0 (the human),
`players.2` index 1 (the bot). -/
structure Game where
  rule : Rule
  difficulty : Difficulty
  players : Player × Player
  winner : Option Nat
  turn : Nat
deriving DecidableEq, Repr

/-- `Game::new`; the two freshly randomized players are parameters (their
random construction is captured by `InitialPlayer` below). -/
def Game.new (rule : Rule) (difficulty : Difficulty) (p0 p1 : Player) : Game :=
  { turn := 0, winner := none, players := (p0, p1), rule := rule, difficulty := difficulty }

/-- `players[i]` for `i ∈ {0, 1}`. -/
def Game.playerByTurn (g : Game) (i : Nat) : Player :=
  if i = 0 then g.players.1 else g.players.2

/-- Writes `players[i]` for `i ∈ {0, 1}`. -/
def Game.setPlayerByTurn (g : Game) (i : Nat) (p : Player) : Game :=
  if i = 0 then { g with players := (p, g.players.2) }
  else { g with players := (g.players.1, p) }

/-- `Game::player`. -/
def Game.player (g : Game) : Player := g.players.1

/-- `Game::computer`. -/
def Game.computer (g : Game) : Player := g.players.2

/-- `Game::fire` restricted to its state effect (the returned message uses
`bot` only for phrasing and is not modelled). -/
def Game.fire (g : Game) (shots : List Coordinate) (_bot : Bool) : Game :=
  let player_index := g.turn
  let opponent_index := 1 - player_index
  let opponent := g.playerByTurn opponent_index
  let fired := opponent.player_board.take_fire shots
  let response := fired.2.1
  let lost := fired.2.2
  let g1 := g.setPlayerByTurn opponent_index
    { opponent with boards := (fired.1, opponent.boards.2) }
  let player := g1.playerByTurn player_index
  let g2 := g1.setPlayerByTurn player_index
    { player with boards := (player.boards.1, player.boards.2.update_status response) }
  { g2 with
      turn := opponent_index,
      winner := if lost then some player_index else g2.winner }

/-- `Game::is_user_turn`. -/
def Game.is_user_turn (g : Game) : Bool := g.turn == 0

/-- `Game::is_won`. -/
def Game.is_won (g : Game) : Bool := g.winner.isSome

/-- `Game::is_valid_rule`. -/
def Game.is_valid_rule (g : Game) (existing_shots : Nat) : Bool :=
  match g.rule with
  | Rule.Default => existing_shots < 1
  | Rule.Fury => existing_shots < g.player.player_board.ships_alive.length
  | Rule.Charge =>
      existing_shots ≤
        g.computer.player_board.ships.length - g.computer.player_board.ships_alive.length

/-- The `number_of_shots` computation of
`Game::generate_bot_firing_coordinates`. -/
def Game.numberOfShots (g : Game) : Nat :=
  match g.rule with
  | Rule.Default => 1
  | Rule.Fury => g.computer.player_board.ships_alive.length
  | Rule.Charge =>
      g.player.player_board.ships.length - g.player.player_board.ships_alive.length + 1

/-- The `previous_shots` list of `Game::generate_bot_firing_coordinates`:
cells of the bot's opponent-tracking board already resolved. -/
def Game.previousShots (g : Game) : List Position :=
  g.computer.opponent_board.positionsFlat.filter
    (fun p => p.status != Status.Live && p.status != Status.Space)

/-- The sampling loop of `Game::generate_bot_firing_coordinates`.  `cands`
is the stream of candidate coordinates the RNG produces (uniform for Easy,
hit-biased then clamped for Hard — either way some sequence of grid
coordinates); the loop keeps collecting candidates that are not already
resolved, deduplicating via set insertion, until `numberOfShots` are
gathered.  `none` models a run that exhausts the given stream, i.e. has not
terminated yet. -/
def Game.genLoop (g : Game) : List Coordinate → List Coordinate → Option (List Coordinate)
  | cands, shots =>
      if g.numberOfShots ≤ shots.length then some shots
      else
        match cands with
        | [] => none
        | c :: rest =>
            Game.genLoop g rest
              (if (g.previousShots.any fun p => p.coordinate == c) || shots.contains c then
                shots
              else shots ++ [c])

/-- `Game::generate_bot_firing_coordinates`, parameterized by the RNG's
candidate stream. -/
def Game.generate_bot_firing_coordinates (g : Game) (cands : List Coordinate) :
    Option (List Coordinate) :=
  g.genLoop cands []

/-- The empty 10x10 grid built at the start of `Board::new`. -/
def emptyGrid : Grid :=
  (List.range ROWS).map fun r => (List.range COLS).map fun c => Position.new (r, c)

/-- Draws a list of ships at their anchors, in order, onto a grid
(the successful placements of the `Board::new` loop). -/
def placeAll : List (Ship × Coordinate) → Grid → Grid
  | [], g => g
  | (s, a) :: rest, g => placeAll rest (s.draw g a).1

/-- The per-ship success conditions of the `Board::new` placement loop:
each ship was created by `Ship::new` (alive, rotation drawn from
`ROTATIONS`), anchored by `get_random_coordinate(rng, SHIP_SIZE)` (each
axis below `10 - 3`), found non-overlapping against the board built so
far, and drawn successfully. -/
def SeqOk : List (Ship × Coordinate) → Grid → Prop
  | [], _ => True
  | (s, a) :: rest, g =>
      (s.rotation = 90 ∨ s.rotation = 180 ∨ s.rotation = 270 ∨ s.rotation = 360) ∧
      s.alive = true ∧
      a.1 < ROWS - SHIP_SIZE ∧ a.2 < COLS - SHIP_SIZE ∧
      s.is_overlapping g a = false ∧
      (s.draw g a).2 = true ∧
      SeqOk rest (s.draw g a).1

instance SeqOk.dec : (l : List (Ship × Coordinate)) → (g : Grid) → Decidable (SeqOk l g)
  | [], _ => by unfold SeqOk; infer_instance
  | (s, a) :: rest, g => by
      unfold SeqOk
      have := SeqOk.dec rest (s.draw g a).1
      infer_instance

/-- `Board::new(true)`: some run of the randomized placement loop produced
this board — one ship of each type in the fixed order, uuids pairwise
distinct, each placed under the loop's success conditions. -/
def InitialSelfBoard (b : Board) : Prop :=
  ∃ specs : List (Ship × Coordinate),
    specs.map (fun sc => sc.1.ship_type) = ShipType.get_initial_ships ∧
    (specs.map fun sc => sc.1.id).Nodup ∧
    SeqOk specs emptyGrid ∧
    b = { positions := placeAll specs emptyGrid, ships := specs.map fun sc => sc.1 }

/-- `Board::new(false)`: an opponent-tracking board starts empty. -/
def InitialOpponentBoard (b : Board) : Prop :=
  b = { positions := emptyGrid, ships := [] }

/-- `Player::new` / `Player::default`: a fresh player with a populated self
board and an empty opponent-tracking board. -/
def InitialPlayer (p : Player) (bot : Bool) : Prop :=
  p.is_bot = bot ∧ InitialSelfBoard p.boards.1 ∧ InitialOpponentBoard p.boards.2

/-- The states reachable from `Game::new` through `fire` / `bot_fire`.
Shot sets handed to `fire` are `BTreeSet`s of grid coordinates (out of
bounds shots would panic), which covers `bot_fire`: generated shots are a
sorted set of in-bounds coordinates by construction. -/
inductive Reachable : Game → Prop where
  | init : ∀ rule difficulty p0 p1, InitialPlayer p0 false → InitialPlayer p1 true →
      Reachable (Game.new rule difficulty p0 p1)
  | step : ∀ g shots bot, Reachable g → IsShotSet shots →
      (∀ c ∈ shots, InBounds c) → Reachable (g.fire shots bot)

/-! ### Concrete game states used as witnesses and counterexamples

A run of `Board::new(true)` that places the four ships with rotation 90 at
anchors `(0,0)`, `(0,3)`, `(0,6)`, `(3,0)`; both players get this self
board.  All placement side conditions hold (checked by `decide` below), so
the games built from it are reachable. -/

def exS1 : Ship := { id := "s1", rotation := 90, alive := true, ship_type := ShipType.X }

def exS2 : Ship := { id := "s2", rotation := 90, alive := true, ship_type := ShipType.V }

def exS3 : Ship := { id := "s3", rotation := 90, alive := true, ship_type := ShipType.H }

def exS4 : Ship := { id := "s4", rotation := 90, alive := true, ship_type := ShipType.I }

def exSpecs : List (Ship × Coordinate) :=
  [(exS1, (0, 0)), (exS2, (0, 3)), (exS3, (0, 6)), (exS4, (3, 0))]

def exSelfBoard : Board :=
  { positions := placeAll exSpecs emptyGrid, ships := exSpecs.map fun sc => sc.1 }

def exOppBoard : Board := { positions := emptyGrid, ships := [] }

def exHuman : Player := { is_bot := false, boards := (exSelfBoard, exOppBoard) }

def exBot : Player := { is_bot := true, boards := (exSelfBoard, exOppBoard) }

/-- A fresh Fury game over the concrete boards. -/
def exGame0 : Game := Game.new Rule.Fury Difficulty.Easy exHuman exBot

/-- `exGame0` after the human fires at all three cells of the bot's I ship
(which sinks it). -/
def exGame1 : Game := exGame0.fire [(3, 1), (4, 1), (5, 1)] false

theorem exHuman_initial : InitialPlayer exHuman false :=
  ⟨rfl, ⟨exSpecs, by decide, by decide, by decide, rfl⟩, rfl⟩

theorem exBot_initial : InitialPlayer exBot true :=
  ⟨rfl, ⟨exSpecs, by decide, by decide, by decide, rfl⟩, rfl⟩

theorem exGame0_reachable : Reachable exGame0 :=
  Reachable.init Rule.Fury Difficulty.Easy exHuman exBot exHuman_initial exBot_initial

theorem exGame1_reachable : Reachable exGame1 :=
  Reachable.step exGame0 [(3, 1), (4, 1), (5, 1)] false exGame0_reachable
    (by decide) (by decide)

/-! ### C9 — shape rotation -/

/-- C9: `ShipType::get_shape` returns `reverse_cols_of_rows ∘ transpose`
for rotation 180, `reverse_rows_of_cols ∘ reverse_cols_of_rows` for 270,
`reverse_rows_of_cols ∘ transpose` for 360 and the base shape for every
other rotation value (including 90); and these compositions are,
pointwise for every 3x3 matrix, exactly the quarter-turn, half-turn and
three-quarter-turn images, so together with the identity the four results
are the four images of the base shape under 0/90/180/270-degree
rotation. -/
theorem c9_get_shape_rotations :
    (∀ (t : ShipType) (r : Nat),
        t.get_shape r =
          if r = 180 then reverse_cols_of_rows (transpose t.base)
          else if r = 270 then reverse_rows_of_cols (reverse_cols_of_rows t.base)
          else if r = 360 then reverse_rows_of_cols (transpose t.base)
          else t.base) ∧
    (∀ m : ShipShape,
        reverse_cols_of_rows (transpose m) = rotateCW m ∧
        reverse_rows_of_cols (reverse_cols_of_rows m) = rotateHalf m ∧
        reverse_rows_of_cols (transpose m) = rotateCCW m ∧
        rotateHalf m = rotateCW (rotateCW m) ∧
        rotateCCW m = rotateCW (rotateHalf m)) := by
  refine ⟨fun t r => rfl, fun m => ⟨rfl, rfl, rfl, rfl, ?_⟩⟩
  funext i j
  simp [rotateCW, rotateHalf, rotateCCW, Fin.rev_rev]

/-! ### C10 — fresh game state -/

/-- C10: immediately after `Game::new` the turn is 0 and there is no
winner, so `is_user_turn` is true and `is_won` is false. -/
theorem c10_new_game_state (rule : Rule) (difficulty : Difficulty) (p0 p1 : Player) :
    (Game.new rule difficulty p0 p1).turn = 0 ∧
    (Game.new rule difficulty p0 p1).winner = none ∧
    (Game.new rule difficulty p0 p1).is_user_turn = true ∧
    (Game.new rule difficulty p0 p1).is_won = false :=
  ⟨rfl, rfl, rfl, rfl⟩

/-! ### C3 — is_valid_rule -/

/-- C3: `Game::is_valid_rule(n)` holds iff, under `Default`, `n < 1`;
under `Fury`, `n` is below the alive-ship count of the human's own board;
under `Charge`, `n` is at most the computer's total ship count minus the
computer's alive ship count (stated additively, which is equivalent since
the alive ships are a sublist of the ships). -/
theorem c3_is_valid_rule_spec (g : Game) (n : Nat) :
    g.is_valid_rule n = true ↔
      (match g.rule with
        | Rule.Default => n < 1
        | Rule.Fury => n < g.player.player_board.ships_alive.length
        | Rule.Charge =>
            n + g.computer.player_board.ships_alive.length ≤
              g.computer.player_board.ships.length) := by
  cases hr : g.rule <;> simp only [Game.is_valid_rule, hr, decide_eq_true_eq]
  exact Nat.le_sub_iff_add_le (List.length_filter_le _ _)

/-! ### C7 — is_valid_rule 0 -/

/-- A Fury game in which every ship of the human's own board is sunk; the
`Fury` arm of `is_valid_rule` then rejects even a first shot. -/
def exGameC7 : Game :=
  { rule := Rule.Fury, difficulty := Difficulty.Easy,
    players :=
      ({ is_bot := false,
         boards :=
           ({ exSelfBoard with
               ships := [{ exS1 with alive := false }, { exS2 with alive := false },
                 { exS3 with alive := false }, { exS4 with alive := false }] },
            exOppBoard) },
       exBot),
    winner := none, turn := 0 }

/-- C7 counterexample: in a Fury game whose human board has no alive
ships, `is_valid_rule(0)` is false, contradicting the claim that it is
true for every game state and rule. -/
theorem c7_counterexample : exGameC7.is_valid_rule 0 = false := by decide

/-- C7 (amended): for every game state whose human board still has at
least one alive ship — which is the case whenever the game is not yet
decided — `is_valid_rule(0)` is true under every rule. -/
theorem c7_amended_first_shot_allowed (g : Game)
    (h : 1 ≤ g.player.player_board.ships_alive.length) :
    g.is_valid_rule 0 = true := by
  cases hr : g.rule <;> simp only [Game.is_valid_rule, hr, decide_eq_true_eq]
  · exact Nat.zero_lt_one
  · exact h
  · exact Nat.zero_le _

/-- Witness for the amended C7 at a concrete fresh game. -/
theorem c7_amended_witness :
    1 ≤ exGame0.player.player_board.ships_alive.length ∧
      exGame0.is_valid_rule 0 = true :=
  ⟨by decide, c7_amended_first_shot_allowed exGame0 (by decide)⟩

/-! ### C2 — fire: turn flip and winner -/

/-- C2: `Game::fire` always flips `turn` to `1 - turn`, and performs the
assignment `winner := attacker` exactly when the defending player's own
board — as stored in the post-fire state — has zero ships with
`alive == true` (otherwise `winner` keeps its previous value).  The
`turn ≤ 1` hypothesis records that `turn` is a player index, which every
state of the Rust program satisfies. -/
theorem c2_fire_turn_winner (g : Game) (shots : List Coordinate) (bot : Bool)
    (ht : g.turn ≤ 1) :
    (g.fire shots bot).turn = 1 - g.turn ∧
    ((g.fire shots bot).winner =
      if ((g.fire shots bot).playerByTurn (1 - g.turn)).player_board.ships_alive.length = 0
      then some g.turn else g.winner) := by
  rcases Nat.le_one_iff_eq_zero_or_eq_one.mp ht with h | h <;>
    simp [Game.fire, Game.playerByTurn, Game.setPlayerByTurn, Player.player_board,
      Board.take_fire, h, List.isEmpty_iff, List.length_eq_zero]

/-- Witness for C2 at the concrete fresh game and a three-shot volley. -/
theorem c2_witness :
    exGame0.turn ≤ 1 ∧
    ((exGame0.fire [(3, 1), (4, 1), (5, 1)] false).turn = 1 - exGame0.turn ∧
      ((exGame0.fire [(3, 1), (4, 1), (5, 1)] false).winner =
        if ((exGame0.fire [(3, 1), (4, 1), (5, 1)] false).playerByTurn
              (1 - exGame0.turn)).player_board.ships_alive.length = 0
        then some exGame0.turn else exGame0.winner)) :=
  ⟨by decide, c2_fire_turn_winner exGame0 [(3, 1), (4, 1), (5, 1)] false (by decide)⟩

/-! ### C4 — is_overlapping -/

/-- An X-type ship (Live only at the corners and the centre of its shape)
and a board whose only Live cell sits at `(0,1)` — under a `Space` cell of
the shape anchored at `(0,0)`. -/
def exShipC4 : Ship := { id := "w", rotation := 90, alive := true, ship_type := ShipType.X }

def exGridC4 : Grid := emptyGrid.setStatus (0, 1) Status.Live

/-- C4 counterexample: `is_overlapping` reports a collision at `(0,0)`
although no `Live` cell of the rotated shape lies over a `Live` board
cell — the source scans the whole 3x3 window without consulting the
shape (`for _ in row`), so non-Live shape cells do cause collisions. -/
theorem c4_counterexample :
    exShipC4.is_overlapping exGridC4 (0, 0) = true ∧
    ((List.finRange 3).all fun i =>
      (List.finRange 3).all fun j =>
        !(exShipC4.shape i j == Status.Live &&
            (exGridC4.getPos (0 + i.1, 0 + j.1)).status == Status.Live)) = true := by
  decide

/-- C4 (amended): `is_overlapping` returns true iff the board is
non-degenerate (non-empty rows and columns) and SOME cell of the full 3x3
window anchored at the top-left coordinate holds status `Live` — whether
or not the shape is `Live` there; a degenerate board yields false. -/
theorem c4_amended_is_overlapping_spec (s : Ship) (positions : Grid)
    (start_cord : Coordinate) :
    s.is_overlapping positions start_cord = true ↔
      ((positions ≠ [] ∧ positions.headD [] ≠ []) ∧
        ∃ i j : Fin 3,
          (positions.getPos (start_cord.1 + i.1, start_cord.2 + j.1)).status =
            Status.Live) := by
  have hguard : (!positions.isEmpty && !(positions.headD []).isEmpty) = true ↔
      (positions ≠ [] ∧ positions.headD [] ≠ []) := by
    cases positions with
    | nil => simp
    | cons r rest => cases r <;> simp
  simp only [Ship.is_overlapping]
  split
  case isTrue hg =>
    rw [hguard] at hg
    constructor
    · intro h
      refine ⟨hg, ?_⟩
      rcases List.any_eq_true.mp h with ⟨i, -, hi⟩
      rcases List.any_eq_true.mp hi with ⟨j, -, hj⟩
      exact ⟨i, j, by simpa using hj⟩
    · rintro ⟨-, i, j, hij⟩
      refine List.any_eq_true.mpr ⟨i, List.mem_finRange i, ?_⟩
      refine List.any_eq_true.mpr ⟨j, List.mem_finRange j, ?_⟩
      simpa using hij
  case isFalse hg =>
    rw [hguard] at hg
    simp only [Bool.false_eq_true, false_iff]
    rintro ⟨h1, -⟩
    exact hg h1

/-! ### C8 — bot shot count -/

/-- If the sampling loop of `generate_bot_firing_coordinates` terminates
starting from a partial set no larger than `numberOfShots`, the returned
set has exactly `numberOfShots` elements. -/
theorem genLoop_some_length (g : Game) :
    ∀ (cands acc shots : List Coordinate),
      acc.length ≤ g.numberOfShots → g.genLoop cands acc = some shots →
      shots.length = g.numberOfShots := by
  intro cands
  induction cands with
  | nil =>
      intro acc shots hle h
      unfold Game.genLoop at h
      split at h
      · cases h
        exact Nat.le_antisymm hle (by assumption)
      · simp at h
  | cons c rest ih =>
      intro acc shots hle h
      unfold Game.genLoop at h
      split at h
      · cases h
        exact Nat.le_antisymm hle (by assumption)
      · rename_i hlt
        apply ih _ shots _ h
        split
        · exact hle
        · have : acc.length < g.numberOfShots := Nat.lt_of_not_le hlt
          simpa using this

/-- C8 counterexample: in the reachable Fury game `exGame1` (the human has
just sunk one of the computer's four ships) a terminating run of
`generate_bot_firing_coordinates` returns 3 coordinates — the computer's
alive-ship count — while the human player's own board has 4 alive ships,
contradicting the claimed count. -/
theorem c8_counterexample :
    Reachable exGame1 ∧ exGame1.rule = Rule.Fury ∧
    exGame1.generate_bot_firing_coordinates [(0, 0), (0, 1), (0, 2)] =
      some [(0, 0), (0, 1), (0, 2)] ∧
    exGame1.player.player_board.ships_alive.length = 4 ∧
    ([((0 : Nat), (0 : Nat)), (0, 1), (0, 2)] : List Coordinate).length ≠
      exGame1.player.player_board.ships_alive.length :=
  ⟨exGame1_reachable, rfl, by decide, by decide, by decide⟩

/-- C8 (amended): whenever `generate_bot_firing_coordinates` terminates it
returns exactly `numberOfShots` coordinates, which under the `Fury` rule
is the COMPUTER's own count of currently-alive ships (the source reads
`self.computer().player_board().ships_alive()`, not the human player's). -/
theorem c8_amended_bot_shot_count (g : Game) (cands shots : List Coordinate)
    (h : g.generate_bot_firing_coordinates cands = some shots) :
    shots.length = g.numberOfShots ∧
    (g.rule = Rule.Fury →
      shots.length = g.computer.player_board.ships_alive.length) := by
  have hn := genLoop_some_length g cands [] shots (Nat.zero_le _) h
  refine ⟨hn, fun hr => ?_⟩
  rw [hn]
  simp [Game.numberOfShots, hr]

/-- Witness for the amended C8 at the concrete reachable Fury game. -/
theorem c8_amended_witness :
    exGame1.generate_bot_firing_coordinates [(0, 0), (0, 1), (0, 2)] =
      some [(0, 0), (0, 1), (0, 2)] ∧
    (([((0 : Nat), (0 : Nat)), (0, 1), (0, 2)] : List Coordinate).length =
        exGame1.numberOfShots ∧
      (exGame1.rule = Rule.Fury →
        ([((0 : Nat), (0 : Nat)), (0, 1), (0, 2)] : List Coordinate).length =
          exGame1.computer.player_board.ships_alive.length)) :=
  ⟨by decide,
    c8_amended_bot_shot_count exGame1 [(0, 0), (0, 1), (0, 2)]
      [(0, 0), (0, 1), (0, 2)] (by decide)⟩

/-! ### Grid access lemmas -/

theorem Grid.getPos_setPos (g : Grid) (c d : Coordinate) (p : Position) :
    (Grid.setPos g d p).getPos c =
      if d = c ∧ d.1 < g.length ∧ d.2 < (g.getD d.1 []).length then p
      else g.getPos c := by
  obtain ⟨d1, d2⟩ := d
  obtain ⟨c1, c2⟩ := c
  unfold Grid.setPos Grid.getPos
  simp only [List.getD, List.get?_eq_getElem?]
  by_cases hr : d1 = c1
  · subst hr
    by_cases hl : d1 < g.length
    · have h1 : (g.set d1 ((g[d1]?.getD []).set d2 p))[d1]? =
          some ((g[d1]?.getD []).set d2 p) := List.getElem?_set_self hl
      rw [h1]
      simp only [Option.getD_some]
      by_cases hc : d2 = c2
      · subst hc
        by_cases hcl : d2 < (g[d1]?.getD []).length
        · rw [List.getElem?_set_self hcl]
          have hcl2 : d2 < g[d1].length := by
            rwa [List.getElem?_eq_getElem hl, Option.getD_some] at hcl
          simp [hl, hcl2]
        · rw [List.getElem?_set]
          simp only [if_pos rfl, if_neg hcl]
          rw [List.getElem?_eq_none (Nat.le_of_not_lt hcl)]
          have hcl2 : ¬d2 < g[d1].length := by
            rwa [List.getElem?_eq_getElem hl, Option.getD_some] at hcl
          simp [hl, hcl2]
      · rw [List.getElem?_set_ne hc, if_neg (by simp [hc])]
    · have h1 : (g.set d1 ((g[d1]?.getD []).set d2 p))[d1]? = (none : Option (List Position)) := by
        rw [List.getElem?_set]
        simp [hl]
      have h2 : g[d1]? = (none : Option (List Position)) :=
        List.getElem?_eq_none (Nat.le_of_not_lt hl)
      rw [h1, h2, if_neg (by simp [hl])]
  · have h1 : (g.set d1 ((g[d1]?.getD []).set d2 p))[c1]? = g[c1]? :=
      List.getElem?_set_ne hr
    rw [h1, if_neg (by simp [hr])]

theorem Grid.getPos_setStatus (g : Grid) (c d : Coordinate) (st : Status) :
    (Grid.setStatus g d st).getPos c =
      if d = c ∧ d.1 < g.length ∧ d.2 < (g.getD d.1 []).length
      then { g.getPos d with status := st }
      else g.getPos c := by
  unfold Grid.setStatus
  exact Grid.getPos_setPos g c d _

theorem Grid.getPos_setStatus_ne (g : Grid) {c d : Coordinate} (st : Status) (h : d ≠ c) :
    (Grid.setStatus g d st).getPos c = g.getPos c := by
  rw [Grid.getPos_setStatus, if_neg (by simp [h])]

theorem Grid.length_setPos (g : Grid) (c : Coordinate) (p : Position) :
    (Grid.setPos g c p).length = g.length :=
  List.length_set ..

theorem Grid.rowlen_setPos (g : Grid) (d : Coordinate) (p : Position) (i : Nat) :
    ((Grid.setPos g d p).getD i []).length = (g.getD i []).length := by
  unfold Grid.setPos
  simp only [List.getD, List.get?_eq_getElem?]
  by_cases hr : d.1 = i
  · subst hr
    by_cases hl : d.1 < g.length
    · rw [List.getElem?_set_self hl]
      simp only [Option.getD_some, List.length_set]
    · rw [List.getElem?_set, List.getElem?_eq_none (Nat.le_of_not_lt hl)]
      simp [hl]
  · rw [List.getElem?_set_ne hr]

theorem Grid.length_setStatus (g : Grid) (c : Coordinate) (st : Status) :
    (Grid.setStatus g c st).length = g.length :=
  Grid.length_setPos ..

theorem Grid.rowlen_setStatus (g : Grid) (d : Coordinate) (st : Status) (i : Nat) :
    ((Grid.setStatus g d st).getD i []).length = (g.getD i []).length :=
  Grid.rowlen_setPos ..

/-- Well-formed 10x10 dimensions. -/
def GridDims (g : Grid) : Prop :=
  g.length = ROWS ∧ ∀ i, i < ROWS → (g.getD i []).length = COLS

theorem GridDims.inb_lt {g : Grid} (hg : GridDims g) {c : Coordinate} (hc : InBounds c) :
    c.1 < g.length ∧ c.2 < (g.getD c.1 []).length := by
  refine ⟨hg.1 ▸ hc.1, ?_⟩
  rw [hg.2 c.1 hc.1]
  exact hc.2

theorem GridDims.setPos {g : Grid} (hg : GridDims g) (c : Coordinate) (p : Position) :
    GridDims (Grid.setPos g c p) := by
  refine ⟨by rw [Grid.length_setPos]; exact hg.1, fun i hi => ?_⟩
  rw [Grid.rowlen_setPos]
  exact hg.2 i hi

theorem GridDims.setStatus {g : Grid} (hg : GridDims g) (c : Coordinate) (st : Status) :
    GridDims (Grid.setStatus g c st) :=
  hg.setPos c _

theorem gridDims_emptyGrid : GridDims emptyGrid := by
  constructor
  · simp [emptyGrid, ROWS]
  · intro i hi
    have hi' : i < (List.range ROWS).length := by simpa using hi
    rw [emptyGrid, List.getD_eq_getElem _ _ (by simpa using hi)]
    simp [COLS]

/-- Every member of a well-formed flattened grid is the cell stored at its
own (in-bounds) coordinate. -/
theorem mem_flatten_getPos {g : Grid} (hg : GridDims g)
    (hco : ∀ c, InBounds c → (Grid.getPos g c).coordinate = c)
    {p : Position} (hp : p ∈ g.flatten) :
    InBounds p.coordinate ∧ Grid.getPos g p.coordinate = p := by
  rcases List.mem_flatten.mp hp with ⟨row, hrow, hpin⟩
  rcases List.mem_iff_getElem.mp hrow with ⟨i, hi, hrowi⟩
  rcases List.mem_iff_getElem.mp hpin with ⟨j, hj, hpj⟩
  have hib : i < ROWS := hg.1 ▸ hi
  have hrowD : g.getD i [] = row := by
    rw [List.getD_eq_getElem _ _ hi, hrowi]
  have hjb : j < COLS := by
    rw [← hg.2 i hib, hrowD]
    exact hj
  have hgp : Grid.getPos g (i, j) = p := by
    unfold Grid.getPos
    rw [hrowD]
    rw [List.getD_eq_getElem row defaultPosition hj]
    exact hpj
  have hc : p.coordinate = (i, j) := by
    rw [← hgp]
    exact hco (i, j) ⟨hib, hjb⟩
  constructor
  · rw [hc]
    exact ⟨hib, hjb⟩
  · rw [hc, hgp]

/-! ### Response-map lemmas -/

theorem lookupResp_nil (c : Coordinate) : lookupResp [] c = none := rfl

theorem lookupResp_cons (e : Coordinate × Status) (r : FiringResponse) (c : Coordinate) :
    lookupResp (e :: r) c = if e.1 = c then some e.2 else lookupResp r c := by
  by_cases h : e.1 = c
  · rw [if_pos h]
    simp only [lookupResp]
    rw [List.find?_cons_of_pos _ (by simpa [beq_iff_eq] using h)]
    rfl
  · rw [if_neg h]
    simp only [lookupResp]
    rw [List.find?_cons_of_neg _ (by simpa [beq_iff_eq] using h)]

theorem lookup_insertResp (r : FiringResponse) (c d : Coordinate) (s : Status) :
    lookupResp (insertResp r c s) d = if c = d then some s else lookupResp r d := by
  induction r with
  | nil =>
      by_cases h : c = d <;>
        simp [insertResp, lookupResp_cons, lookupResp_nil, h]
  | cons e rest ih =>
      simp only [insertResp]
      by_cases he : e.1 = c
      · rw [if_pos (by simpa [beq_iff_eq] using he)]
        rw [lookupResp_cons, lookupResp_cons]
        by_cases h : c = d
        · simp [h]
        · rw [if_neg h, if_neg h, if_neg (he ▸ h)]
      · rw [if_neg (by simpa [beq_iff_eq] using he)]
        rw [lookupResp_cons, lookupResp_cons, ih]
        by_cases h1 : e.1 = d <;> by_cases h2 : c = d
        · exact absurd (h1.trans h2.symm) he
        · simp [h1, h2]
        · simp [h1, h2]
        · simp [h1, h2]

theorem lookup_killfold (L : List Position) (resp : FiringResponse) (c : Coordinate) :
    lookupResp (L.foldl (fun r p => insertResp r p.coordinate Status.Kill) resp) c =
      if ∃ p ∈ L, p.coordinate = c then some Status.Kill else lookupResp resp c := by
  induction L generalizing resp with
  | nil => simp
  | cons p L ih =>
      simp only [List.foldl_cons, ih, lookup_insertResp]
      by_cases h1 : ∃ q ∈ L, q.coordinate = c
      · simp [h1]
      · by_cases h2 : p.coordinate = c
        · simp [h1, h2]
        · simp [h1, h2]

/-- Full characterization of one iteration of the `take_fire` loop: the
grid changes only at the shot cell (and only when that cell is not already
`Hit`/`Kill`); the response gains the shot's entry, on top of possible
`Kill` escalation entries at cells owned by the shot cell's ship. -/
theorem takeFireShot_char (b : Board) (resp : FiringResponse) (shot : Coordinate) :
    ∃ (st : Status) (resp1 : FiringResponse),
      (takeFireShot (b, resp) shot).1.positions =
        (if (b.positions.getPos shot).status ≠ Status.Hit ∧
            (b.positions.getPos shot).status ≠ Status.Kill
         then Grid.setStatus b.positions shot st else b.positions) ∧
      (takeFireShot (b, resp) shot).2 = insertResp resp1 shot st ∧
      ((b.positions.getPos shot).status = Status.Live →
        (st = Status.Hit ∨ st = Status.Kill)) ∧
      ((b.positions.getPos shot).status ≠ Status.Live → st = Status.Miss) ∧
      (st = Status.Kill → (b.positions.getPos shot).ship_id ≠ none) ∧
      (∀ c, lookupResp resp1 c = lookupResp resp c ∨
        (lookupResp resp1 c = some Status.Kill ∧
          ∃ p ∈ b.positionsFlat, p.coordinate = c ∧ p.ship_id ≠ none)) := by
  by_cases hL : (b.positions.getPos shot).status = Status.Live
  · cases hs : (b.positions.getPos shot).ship_id with
    | none =>
        refine ⟨Status.Hit, resp, ?_, ?_, fun _ => Or.inl rfl, fun h => absurd hL h,
          ?_, fun c => Or.inl rfl⟩
        · simp [takeFireShot, hL, hs]
        · simp [takeFireShot, hL, hs]
        · intro h
          cases h
    | some id =>
        by_cases hcnt : (b.alive_pos_by_ship id).length ≤ 1
        · by_cases hfind : (b.find_ship id).isSome
          · refine ⟨Status.Kill,
              (Board.pos_by_ship { b with ships := setAliveFalseFirst b.ships id } id).foldl
                (fun r p => insertResp r p.coordinate Status.Kill) resp,
              ?_, ?_, fun _ => Or.inr rfl, fun h => absurd hL h,
              fun _ => by simp [hs], fun c => ?_⟩
            · simp [takeFireShot, hL, hs, hcnt, hfind]
            · simp [takeFireShot, hL, hs, hcnt, hfind]
            · rw [lookup_killfold]
              by_cases hex : ∃ p ∈ Board.pos_by_ship
                  { b with ships := setAliveFalseFirst b.ships id } id, p.coordinate = c
              · rw [if_pos hex]
                rcases hex with ⟨p, hpmem, hpc⟩
                refine Or.inr ⟨rfl, p, ?_, hpc, ?_⟩
                · exact (List.mem_filter.mp hpmem).1
                · have := (List.mem_filter.mp hpmem).2
                  simp only [beq_iff_eq] at this
                  simp [this]
              · rw [if_neg hex]
                exact Or.inl rfl
          · refine ⟨Status.Hit, resp, ?_, ?_, fun _ => Or.inl rfl, fun h => absurd hL h,
              ?_, fun c => Or.inl rfl⟩
            · simp [takeFireShot, hL, hs, hcnt, hfind]
            · simp [takeFireShot, hL, hs, hcnt, hfind]
            · intro h
              cases h
        · refine ⟨Status.Hit, resp, ?_, ?_, fun _ => Or.inl rfl, fun h => absurd hL h,
            ?_, fun c => Or.inl rfl⟩
          · simp [takeFireShot, hL, hs, hcnt]
          · simp [takeFireShot, hL, hs, hcnt]
          · intro h
            cases h
  · refine ⟨Status.Miss, resp, ?_, ?_, fun h => absurd h hL, fun _ => rfl,
      ?_, fun c => Or.inl rfl⟩
    · simp only [takeFireShot]
      simp only [beq_iff_eq, hL]
      split <;> rfl
    · simp [takeFireShot, hL]
    · intro h
      cases h
/-! ### C6 — already-resolved cells are frame-stable -/

/-- Fold version of the C6 frame property: a cell whose stored status is
already `Hit` or `Kill` is never written again, and once its coordinate has
an entry in the response map (or is about to be shot) the final response
keeps some entry for it. -/
theorem takeFire_fold_frame (c : Coordinate) :
    ∀ (shots : List Coordinate) (b : Board) (resp : FiringResponse),
      ((b.positions.getPos c).status = Status.Hit ∨
        (b.positions.getPos c).status = Status.Kill) →
      ((shots.foldl takeFireShot (b, resp)).1.positions.getPos c =
          b.positions.getPos c ∧
        ((c ∈ shots ∨ lookupResp resp c ≠ none) →
          lookupResp (shots.foldl takeFireShot (b, resp)).2 c ≠ none)) := by
  intro shots
  induction shots with
  | nil =>
      intro b resp h
      refine ⟨rfl, fun hc => ?_⟩
      rcases hc with hc | hc
      · cases hc
      · exact hc
  | cons shot rest ih =>
      intro b resp h
      obtain ⟨st, resp1, hpos, hresp, -, -, -, hlook⟩ := takeFireShot_char b resp shot
      have hstep_pos : (takeFireShot (b, resp) shot).1.positions.getPos c =
          b.positions.getPos c := by
        rw [hpos]
        split
        · rename_i hcond
          by_cases hsc : shot = c
          · subst hsc
            rcases h with h | h <;> simp [h] at hcond
          · exact Grid.getPos_setStatus_ne _ _ hsc
        · rfl
      have hih := ih (takeFireShot (b, resp) shot).1 (takeFireShot (b, resp) shot).2
        (by rw [hstep_pos]; exact h)
      refine ⟨by rw [List.foldl_cons]; exact hih.1.trans hstep_pos, fun hc => ?_⟩
      rw [List.foldl_cons]
      apply hih.2
      by_cases hsc : shot = c
      · refine Or.inr ?_
        rw [hresp, lookup_insertResp, if_pos hsc]
        simp
      · rcases hc with hc | hc
        · rcases List.mem_cons.mp hc with hc | hc
          · exact absurd hc.symm hsc
          · exact Or.inl hc
        · refine Or.inr ?_
          rw [hresp, lookup_insertResp, if_neg hsc]
          rcases hlook c with hl | hl
          · rw [hl]
            exact hc
          · rw [hl.1]
            simp

/-- C6: if the target cell of a shot is already resolved (`Hit` or
`Kill`), `take_fire` leaves that cell — its stored status and its
`ship_id` — completely unchanged, while the shot's coordinate still gets
an entry in the returned response map. -/
theorem c6_resolved_cell_frame (b : Board) (shots : List Coordinate) (c : Coordinate)
    (h : (b.positions.getPos c).status = Status.Hit ∨
      (b.positions.getPos c).status = Status.Kill) :
    (b.take_fire shots).1.positions.getPos c = b.positions.getPos c ∧
    (c ∈ shots → lookupResp (b.take_fire shots).2.1 c ≠ none) := by
  have hf := takeFire_fold_frame c shots b [] h
  exact ⟨hf.1, fun hc => hf.2 (Or.inl hc)⟩

/-- A mid-game self board with an already-`Hit` cell at `(1,1)` and a
still-`Live` cell at `(1,2)`, both owned by the lone I-type ship. -/
def boardC6 : Board :=
  { positions :=
      (emptyGrid.setPos (1, 1)
          { status := Status.Hit, coordinate := (1, 1), ship_id := some "s" }).setPos (1, 2)
        { status := Status.Live, coordinate := (1, 2), ship_id := some "s" },
    ships := [{ id := "s", rotation := 180, alive := true, ship_type := ShipType.I }] }

/-- Witness for C6: re-shooting the already-`Hit` cell `(1,1)` of
`boardC6` leaves the cell unchanged while still reporting it. -/
theorem c6_witness :
    ((boardC6.positions.getPos (1, 1)).status = Status.Hit ∨
      (boardC6.positions.getPos (1, 1)).status = Status.Kill) ∧
    ((boardC6.take_fire [(1, 1)]).1.positions.getPos (1, 1) =
        boardC6.positions.getPos (1, 1) ∧
      ((1, 1) ∈ [((1 : Nat), (1 : Nat))] →
        lookupResp (boardC6.take_fire [(1, 1)]).2.1 (1, 1) ≠ none)) :=
  ⟨Or.inl (by decide), c6_resolved_cell_frame boardC6 [(1, 1)] (1, 1) (Or.inl (by decide))⟩
/-! ### C1 — take_fire shot classification -/

/-- A mid-game self board: the I-type ship (rotation 180, i.e. a
horizontal bar on row 1) owns `(1,0)` and `(1,1)`, already `Hit`, and
`(1,2)`, still `Live` — one remaining live cell. -/
def shipC1 : Ship := { id := "s", rotation := 180, alive := true, ship_type := ShipType.I }

def boardC1 : Board :=
  { positions :=
      ((emptyGrid.setPos (1, 0)
            { status := Status.Hit, coordinate := (1, 0), ship_id := some "s" }).setPos (1, 1)
          { status := Status.Hit, coordinate := (1, 1), ship_id := some "s" }).setPos (1, 2)
        { status := Status.Live, coordinate := (1, 2), ship_id := some "s" },
    ships := [shipC1] }

/-- C1 counterexample: firing the sorted in-bounds shot set
`{(1,0), (1,2)}` at `boardC1`, the shot `(1,0)` lands on a cell whose
status is `Hit` (not `Live`), so the claim requires its response entry to
be `Miss`; but the later shot `(1,2)` sinks the ship and the kill
escalation overwrites the `(1,0)` entry with `Kill`. -/
theorem c1_counterexample :
    IsShotSet [(1, 0), (1, 2)] ∧
    (∀ c ∈ [((1 : Nat), (0 : Nat)), (1, 2)], InBounds c) ∧
    (boardC1.positions.getPos (1, 0)).status = Status.Hit ∧
    lookupResp (boardC1.take_fire [(1, 0), (1, 2)]).2.1 (1, 0) = some Status.Kill := by
  refine ⟨by decide, by decide, by decide, by decide⟩

/-- C1 (amended): the claimed three-way classification of `take_fire`
responses holds for every single-shot call on a well-formed self board (a
`Live` target cell carries the id of a ship present in the ship list).
For multi-shot calls it can fail: entries of a ship sunk in the same call
are overwritten by later shots and vice versa (see the counterexample). -/
theorem c1_amended_single_shot_classification (b : Board) (c : Coordinate) :
    ((b.positions.getPos c).status ≠ Status.Live →
      (b.take_fire [c]).2.1 = [(c, Status.Miss)]) ∧
    (∀ id, (b.positions.getPos c).status = Status.Live →
      (b.positions.getPos c).ship_id = some id →
      (b.find_ship id).isSome →
      ((2 ≤ (b.alive_pos_by_ship id).length →
          (b.take_fire [c]).2.1 = [(c, Status.Hit)]) ∧
        ((b.alive_pos_by_ship id).length = 1 →
          lookupResp (b.take_fire [c]).2.1 c = some Status.Kill ∧
          ∀ p ∈ b.positionsFlat, p.ship_id = some id →
            lookupResp (b.take_fire [c]).2.1 p.coordinate = some Status.Kill))) := by
  constructor
  · intro hL
    simp [Board.take_fire, takeFireShot, hL, insertResp]
  · intro id hL hs hfind
    constructor
    · intro hcnt
      have hcnt' : ¬(b.alive_pos_by_ship id).length ≤ 1 := by omega
      simp [Board.take_fire, takeFireShot, hL, hs, hcnt', insertResp]
    · intro hcnt
      have hcnt' : (b.alive_pos_by_ship id).length ≤ 1 := by omega
      have hresp : (b.take_fire [c]).2.1 =
          insertResp
            ((Board.pos_by_ship { b with ships := setAliveFalseFirst b.ships id } id).foldl
              (fun r p => insertResp r p.coordinate Status.Kill) [])
            c Status.Kill := by
        simp [Board.take_fire, takeFireShot, hL, hs, hcnt', hfind]
      constructor
      · rw [hresp, lookup_insertResp, if_pos rfl]
      · intro p hp hpid
        rw [hresp, lookup_insertResp]
        have hmem : p ∈ Board.pos_by_ship
            { b with ships := setAliveFalseFirst b.ships id } id := by
          apply List.mem_filter.mpr
          exact ⟨hp, by simp [hpid]⟩
        by_cases hc : c = p.coordinate
        · rw [if_pos hc]
        · rw [if_neg hc, lookup_killfold, if_pos ⟨p, hmem, rfl⟩]

/-- Witness for the amended C1, exercising the kill branch: the single
shot `(1,2)` on `boardC1` sinks the I ship and reports `Kill` for every
cell the ship owns. -/
theorem c1_amended_witness :
    (boardC1.positions.getPos (1, 2)).status = Status.Live ∧
    (boardC1.positions.getPos (1, 2)).ship_id = some "s" ∧
    (boardC1.find_ship "s").isSome = true ∧
    (boardC1.alive_pos_by_ship "s").length = 1 ∧
    (lookupResp (boardC1.take_fire [(1, 2)]).2.1 (1, 2) = some Status.Kill ∧
      ∀ p ∈ boardC1.positionsFlat, p.ship_id = some "s" →
        lookupResp (boardC1.take_fire [(1, 2)]).2.1 p.coordinate = some Status.Kill) :=
  ⟨by decide, by decide, by decide, by decide,
    ((c1_amended_single_shot_classification boardC1 (1, 2)).2 "s" (by decide) (by decide)
        (by decide)).2 (by decide)⟩

/-! ### C5 — opponent-tracking board invariant: infrastructure -/

theorem coordLt_ne {a b : Coordinate} (h : coordLt a b = true) : a ≠ b := by
  intro he
  subst he
  simp only [coordLt, Bool.or_eq_true, Bool.and_eq_true, beq_iff_eq, decide_eq_true_eq] at h
  omega

theorem coordLt_trans {a b c : Coordinate} (h1 : coordLt a b = true)
    (h2 : coordLt b c = true) : coordLt a c = true := by
  simp only [coordLt, Bool.or_eq_true, Bool.and_eq_true, beq_iff_eq, decide_eq_true_eq]
    at h1 h2 ⊢
  omega

theorem isStrictAsc_pairwise :
    ∀ l : List Coordinate, isStrictAsc l = true →
      l.Pairwise (fun a b => coordLt a b = true)
  | [] => by simp
  | [a] => by simp
  | a :: b :: rest => by
      intro h
      simp only [isStrictAsc, Bool.and_eq_true] at h
      have hrest := isStrictAsc_pairwise (b :: rest) h.2
      refine List.Pairwise.cons (fun x hx => ?_) hrest
      rcases List.mem_cons.mp hx with hx | hx
      · exact hx ▸ h.1
      · exact coordLt_trans h.1 (List.rel_of_pairwise_cons hrest hx)

theorem IsShotSet.nodup {l : List Coordinate} (h : IsShotSet l) : l.Nodup :=
  (isStrictAsc_pairwise l h).imp fun hab => coordLt_ne hab

theorem mem_keys_insertResp {r : FiringResponse} {c d : Coordinate} {s : Status}
    (h : d ∈ (insertResp r c s).map Prod.fst) : d = c ∨ d ∈ r.map Prod.fst := by
  induction r with
  | nil => simpa [insertResp] using h
  | cons e rest ih =>
      simp only [insertResp] at h
      split at h
      · simp only [List.map_cons, List.mem_cons] at h ⊢
        rcases h with h | h
        · exact Or.inl h
        · exact Or.inr (Or.inr h)
      · simp only [List.map_cons, List.mem_cons] at h ⊢
        rcases h with h | h
        · exact Or.inr (Or.inl h)
        · rcases ih h with h1 | h1
          · exact Or.inl h1
          · exact Or.inr (Or.inr h1)

theorem keys_nodup_insertResp (r : FiringResponse) (c : Coordinate) (s : Status)
    (h : (r.map Prod.fst).Nodup) : ((insertResp r c s).map Prod.fst).Nodup := by
  induction r with
  | nil => simp [insertResp]
  | cons e rest ih =>
      simp only [insertResp]
      split
      · rename_i he
        simp only [List.map_cons, List.nodup_cons] at h ⊢
        exact ⟨(beq_iff_eq.mp he) ▸ h.1, h.2⟩
      · rename_i he
        simp only [List.map_cons, List.nodup_cons] at h ⊢
        refine ⟨fun hmem => ?_, ih h.2⟩
        rcases mem_keys_insertResp hmem with h1 | h1
        · exact he (by simp [h1])
        · exact h.1 h1

theorem keys_nodup_killfold (L : List Position) (resp : FiringResponse)
    (h : (resp.map Prod.fst).Nodup) :
    ((L.foldl (fun r p => insertResp r p.coordinate Status.Kill) resp).map Prod.fst).Nodup := by
  induction L generalizing resp with
  | nil => exact h
  | cons p L ih => exact ih _ (keys_nodup_insertResp _ _ _ h)

theorem lookup_ne_none_iff (r : FiringResponse) (c : Coordinate) :
    lookupResp r c ≠ none ↔ c ∈ r.map Prod.fst := by
  induction r with
  | nil => simp [lookupResp_nil]
  | cons e rest ih =>
      rw [lookupResp_cons]
      by_cases h : e.1 = c
      · simp [h]
      · rw [if_neg h, List.map_cons, List.mem_cons]
        constructor
        · intro hne
          exact Or.inr (ih.mp hne)
        · intro hm
          rcases hm with hm | hm
          · exact absurd hm.symm h
          · exact ih.mpr hm

/-- Key-set discipline of one `take_fire` iteration: duplicate-free
response keys stay duplicate-free. -/
theorem takeFireShot_keys_nodup (b : Board) (resp : FiringResponse) (shot : Coordinate)
    (h : (resp.map Prod.fst).Nodup) :
    (((takeFireShot (b, resp) shot).2).map Prod.fst).Nodup := by
  by_cases hL : (b.positions.getPos shot).status = Status.Live
  · cases hs : (b.positions.getPos shot).ship_id with
    | none =>
        rw [show (takeFireShot (b, resp) shot).2 = insertResp resp shot Status.Hit from by
          simp [takeFireShot, hL, hs]]
        exact keys_nodup_insertResp _ _ _ h
    | some id =>
        by_cases hcnt : (b.alive_pos_by_ship id).length ≤ 1
        · by_cases hfind : (b.find_ship id).isSome
          · rw [show (takeFireShot (b, resp) shot).2 =
                insertResp
                  ((Board.pos_by_ship { b with ships := setAliveFalseFirst b.ships id }
                      id).foldl (fun r p => insertResp r p.coordinate Status.Kill) resp)
                  shot Status.Kill from by
              simp [takeFireShot, hL, hs, hcnt, hfind]]
            exact keys_nodup_insertResp _ _ _ (keys_nodup_killfold _ _ h)
          · rw [show (takeFireShot (b, resp) shot).2 = insertResp resp shot Status.Hit from by
              simp [takeFireShot, hL, hs, hcnt, hfind]]
            exact keys_nodup_insertResp _ _ _ h
        · rw [show (takeFireShot (b, resp) shot).2 = insertResp resp shot Status.Hit from by
            simp [takeFireShot, hL, hs, hcnt]]
          exact keys_nodup_insertResp _ _ _ h
  · rw [show (takeFireShot (b, resp) shot).2 = insertResp resp shot Status.Miss from by
      simp [takeFireShot, hL]]
    exact keys_nodup_insertResp _ _ _ h

/-- The status transitions `take_fire` can make on a defender's own
board: untouched, a struck `Live` cell, or a recorded `Miss` on an
unrevealed or already-missed cell. -/
def TransTF (a b : Status) : Prop :=
  a = b ∨ (a = Status.Live ∧ (b = Status.Hit ∨ b = Status.Kill)) ∨
    ((a = Status.Space ∨ a = Status.Miss) ∧ b = Status.Miss)

/-- Loop invariant of `Board::take_fire`, relating the evolving board `b`
and response map `resp` to the pre-call board `b0`. -/
structure TakeFireInv (b0 b : Board) (resp : FiringResponse) : Prop where
  len : b.positions.length = b0.positions.length
  rowlen : ∀ i, (b.positions.getD i []).length = (b0.positions.getD i []).length
  meta : ∀ c, (b.positions.getPos c).ship_id = (b0.positions.getPos c).ship_id ∧
      (b.positions.getPos c).coordinate = (b0.positions.getPos c).coordinate
  tstat : ∀ c, TransTF (b0.positions.getPos c).status (b.positions.getPos c).status
  nodup : (resp.map Prod.fst).Nodup
  keys_inb : ∀ c, lookupResp resp c ≠ none → InBounds c
  val_mhk : ∀ c s, lookupResp resp c = some s →
      s = Status.Miss ∨ s = Status.Hit ∨ s = Status.Kill
  val_miss : ∀ c, lookupResp resp c = some Status.Miss →
      (b0.positions.getPos c).status ≠ Status.Live
  val_hit : ∀ c, lookupResp resp c = some Status.Hit →
      (b0.positions.getPos c).status = Status.Live
  val_kill : ∀ c, lookupResp resp c = some Status.Kill →
      (b0.positions.getPos c).ship_id ≠ none
  changed : ∀ c, (b.positions.getPos c).status ≠ (b0.positions.getPos c).status →
      ((b.positions.getPos c).status = Status.Hit ∨
        (b.positions.getPos c).status = Status.Kill) →
      (lookupResp resp c = some Status.Hit ∨ lookupResp resp c = some Status.Kill)

theorem takeFireShot_inv (b0 : Board) (hdims : GridDims b0.positions)
    (hco : ∀ c, InBounds c → (b0.positions.getPos c).coordinate = c)
    (b : Board) (resp : FiringResponse) (shot : Coordinate)
    (hsb : InBounds shot)
    (hfresh : b.positions.getPos shot = b0.positions.getPos shot)
    (hinv : TakeFireInv b0 b resp) :
    TakeFireInv b0 (takeFireShot (b, resp) shot).1 (takeFireShot (b, resp) shot).2 ∧
    (∀ c, c ≠ shot →
      (takeFireShot (b, resp) shot).1.positions.getPos c = b.positions.getPos c) := by
  have hdimsb : GridDims b.positions :=
    ⟨hinv.len ▸ hdims.1, fun i hi => (hinv.rowlen i).trans (hdims.2 i hi)⟩
  have hcob : ∀ c, InBounds c → (b.positions.getPos c).coordinate = c :=
    fun c hc => ((hinv.meta c).2).trans (hco c hc)
  obtain ⟨st, resp1, hpos, hresp, hLive, hNot, hKillsid, hlook⟩ := takeFireShot_char b resp shot
  have hin := hdimsb.inb_lt hsb
  have hwr : ∀ c, (takeFireShot (b, resp) shot).1.positions.getPos c =
      (if ((b.positions.getPos shot).status ≠ Status.Hit ∧
            (b.positions.getPos shot).status ≠ Status.Kill) ∧ shot = c
        then { b.positions.getPos shot with status := st }
        else b.positions.getPos c) := by
    intro c
    rw [hpos]
    by_cases hcond : (b.positions.getPos shot).status ≠ Status.Hit ∧
        (b.positions.getPos shot).status ≠ Status.Kill
    · rw [if_pos hcond, Grid.getPos_setStatus]
      by_cases hsc : shot = c
      · rw [if_pos ⟨hsc, hin.1, hin.2⟩, if_pos ⟨hcond, hsc⟩]
      · rw [if_neg (by simp [hsc]), if_neg (by simp [hsc])]
    · rw [if_neg hcond, if_neg fun h => hcond h.1]
  have huntouched : ∀ c, c ≠ shot →
      (takeFireShot (b, resp) shot).1.positions.getPos c = b.positions.getPos c := by
    intro c hc
    rw [hwr c, if_neg fun h => hc h.2.symm]
  have hlen : (takeFireShot (b, resp) shot).1.positions.length = b.positions.length := by
    rw [hpos]
    split
    · exact Grid.length_setStatus ..
    · rfl
  have hrowlen : ∀ i, ((takeFireShot (b, resp) shot).1.positions.getD i []).length =
      (b.positions.getD i []).length := by
    intro i
    rw [hpos]
    split
    · exact Grid.rowlen_setStatus ..
    · rfl
  have hlook' : ∀ c, lookupResp (takeFireShot (b, resp) shot).2 c =
      (if shot = c then some st else lookupResp resp1 c) := by
    intro c
    rw [hresp, lookup_insertResp]
  have hkillmem : ∀ c, (lookupResp resp1 c = some Status.Kill ∧
        ∃ p ∈ b.positionsFlat, p.coordinate = c ∧ p.ship_id ≠ none) →
      InBounds c ∧ (b0.positions.getPos c).ship_id ≠ none := by
    rintro c ⟨-, p, hp, hpc, hpid⟩
    obtain ⟨hpin, hpeq⟩ := mem_flatten_getPos hdimsb hcob hp
    subst hpc
    refine ⟨hpin, ?_⟩
    rw [← (hinv.meta p.coordinate).1, hpeq]
    exact hpid
  refine ⟨⟨hlen.trans hinv.len, fun i => (hrowlen i).trans (hinv.rowlen i), ?_, ?_,
    takeFireShot_keys_nodup b resp shot hinv.nodup, ?_, ?_, ?_, ?_, ?_, ?_⟩, huntouched⟩
  · -- meta
    intro c
    rw [hwr c]
    split
    · rename_i hc
      rw [← hc.2]
      exact hinv.meta shot
    · exact hinv.meta c
  · -- tstat
    intro c
    rw [hwr c]
    split
    · rename_i hc
      obtain ⟨⟨hnh, hnk⟩, hsc⟩ := hc
      subst hsc
      rw [← hfresh]
      by_cases hL : (b.positions.getPos shot).status = Status.Live
      · exact Or.inr (Or.inl ⟨hL, hLive hL⟩)
      · refine Or.inr (Or.inr ⟨?_, hNot hL⟩)
        cases h : (b.positions.getPos shot).status
        · exact absurd h hL
        · exact Or.inr rfl
        · exact absurd h hnh
        · exact absurd h hnk
        · exact Or.inl rfl
    · exact hinv.tstat c
  · -- keys_inb
    intro c hc
    rw [hlook' c] at hc
    by_cases hsc : shot = c
    · exact hsc ▸ hsb
    · rw [if_neg hsc] at hc
      rcases hlook c with hl | hl
      · exact hinv.keys_inb c (by rw [← hl]; exact hc)
      · exact (hkillmem c hl).1
  · -- val_mhk
    intro c s hc
    rw [hlook' c] at hc
    by_cases hsc : shot = c
    · rw [if_pos hsc] at hc
      cases hc
      by_cases hL : (b.positions.getPos shot).status = Status.Live
      · rcases hLive hL with h | h
        · exact Or.inr (Or.inl h)
        · exact Or.inr (Or.inr h)
      · exact Or.inl (hNot hL)
    · rw [if_neg hsc] at hc
      rcases hlook c with hl | hl
      · exact hinv.val_mhk c s (by rw [← hl]; exact hc)
      · rw [hl.1] at hc
        cases hc
        exact Or.inr (Or.inr rfl)
  · -- val_miss
    intro c hc
    rw [hlook' c] at hc
    by_cases hsc : shot = c
    · rw [if_pos hsc] at hc
      cases hc
      subst hsc
      intro hL0
      have hL : (b.positions.getPos shot).status = Status.Live := by
        rw [hfresh]
        exact hL0
      rcases hLive hL with h | h <;> cases h
    · rw [if_neg hsc] at hc
      rcases hlook c with hl | hl
      · exact hinv.val_miss c (by rw [← hl]; exact hc)
      · rw [hl.1] at hc
        cases hc
  · -- val_hit
    intro c hc
    rw [hlook' c] at hc
    by_cases hsc : shot = c
    · rw [if_pos hsc] at hc
      cases hc
      subst hsc
      by_contra hL0
      have hL : (b.positions.getPos shot).status ≠ Status.Live := by
        rw [hfresh]
        exact hL0
      cases hNot hL
    · rw [if_neg hsc] at hc
      rcases hlook c with hl | hl
      · exact hinv.val_hit c (by rw [← hl]; exact hc)
      · rw [hl.1] at hc
        cases hc
  · -- val_kill
    intro c hc
    rw [hlook' c] at hc
    by_cases hsc : shot = c
    · rw [if_pos hsc] at hc
      cases hc
      subst hsc
      rw [← (hinv.meta shot).1]
      exact hKillsid rfl
    · rw [if_neg hsc] at hc
      rcases hlook c with hl | hl
      · exact hinv.val_kill c (by rw [← hl]; exact hc)
      · exact (hkillmem c hl).2
  · -- changed
    intro c hne hhk
    rw [hwr c] at hne hhk
    rw [hlook' c]
    by_cases hstep : ((b.positions.getPos shot).status ≠ Status.Hit ∧
        (b.positions.getPos shot).status ≠ Status.Kill) ∧ shot = c
    · rw [if_pos hstep] at hne hhk
      rw [if_pos hstep.2]
      simp only at hhk
      rcases hhk with h | h
      · exact Or.inl (by rw [h])
      · exact Or.inr (by rw [h])
    · rw [if_neg hstep] at hne hhk
      by_cases hsc : shot = c
      · subst hsc
        rw [hfresh] at hne
        exact absurd rfl hne
      · rw [if_neg hsc]
        rcases hlook c with hl | hl
        · rw [hl]
          exact hinv.changed c hne hhk
        · exact Or.inr hl.1

theorem takeFireInv_init (b0 : Board) : TakeFireInv b0 b0 [] where
  len := rfl
  rowlen := fun _ => rfl
  meta := fun _ => ⟨rfl, rfl⟩
  tstat := fun _ => Or.inl rfl
  nodup := List.nodup_nil
  keys_inb := fun _ h => absurd rfl h
  val_mhk := fun c s h => by cases h
  val_miss := fun c h => by cases h
  val_hit := fun c h => by cases h
  val_kill := fun c h => by cases h
  changed := fun c hne _ => absurd rfl hne

theorem takeFire_fold_inv (b0 : Board) (hdims : GridDims b0.positions)
    (hco : ∀ c, InBounds c → (b0.positions.getPos c).coordinate = c) :
    ∀ (shots : List Coordinate) (b : Board) (resp : FiringResponse),
      shots.Nodup → (∀ c ∈ shots, InBounds c) →
      (∀ c ∈ shots, b.positions.getPos c = b0.positions.getPos c) →
      TakeFireInv b0 b resp →
      TakeFireInv b0 (shots.foldl takeFireShot (b, resp)).1
        (shots.foldl takeFireShot (b, resp)).2 := by
  intro shots
  induction shots with
  | nil =>
      intro b resp _ _ _ h
      exact h
  | cons shot rest ih =>
      intro b resp hnd hinb hfresh hinv
      obtain ⟨hinv', huntouched⟩ := takeFireShot_inv b0 hdims hco b resp shot
        (hinb shot (List.mem_cons_self ..)) (hfresh shot (List.mem_cons_self ..)) hinv
      have hpair : takeFireShot (b, resp) shot =
          ((takeFireShot (b, resp) shot).1, (takeFireShot (b, resp) shot).2) := rfl
      rw [List.foldl_cons, hpair]
      refine ih (takeFireShot (b, resp) shot).1 (takeFireShot (b, resp) shot).2
        (List.nodup_cons.mp hnd).2
        (fun c hc => hinb c (List.mem_cons_of_mem _ hc))
        (fun c hc => ?_) hinv'
      rw [huntouched c fun he => (List.nodup_cons.mp hnd).1 (he ▸ hc)]
      exact hfresh c (List.mem_cons_of_mem _ hc)

/-- `Board::take_fire` satisfies `TakeFireInv` with respect to its input
board. -/
theorem take_fire_inv (b : Board) (shots : List Coordinate)
    (hdims : GridDims b.positions)
    (hco : ∀ c, InBounds c → (b.positions.getPos c).coordinate = c)
    (hnd : shots.Nodup) (hinb : ∀ c ∈ shots, InBounds c) :
    TakeFireInv b (b.take_fire shots).1 (b.take_fire shots).2.1 :=
  takeFire_fold_inv b hdims hco shots b [] hnd hinb (fun _ _ => rfl) (takeFireInv_init b)

theorem update_status_ships (b : Board) (resp : FiringResponse) :
    (b.update_status resp).ships = b.ships := by
  unfold Board.update_status
  induction resp generalizing b with
  | nil => rfl
  | cons e rest ih =>
      rw [List.foldl_cons]
      exact (ih _).trans (by dsimp only; split <;> rfl)

theorem update_status_dims (b : Board) (resp : FiringResponse) :
    (b.update_status resp).positions.length = b.positions.length ∧
    ∀ i, ((b.update_status resp).positions.getD i []).length =
      (b.positions.getD i []).length := by
  unfold Board.update_status
  induction resp generalizing b with
  | nil => exact ⟨rfl, fun _ => rfl⟩
  | cons e rest ih =>
      rw [List.foldl_cons]
      obtain ⟨ih1, ih2⟩ := ih (if (b.positions.getPos e.1).status == Status.Space ||
          (b.positions.getPos e.1).status == Status.Live || e.2 == Status.Kill then
          { b with positions := b.positions.setStatus e.1 e.2 } else b)
      constructor
      · rw [ih1]
        split
        · exact Grid.length_setStatus ..
        · rfl
      · intro i
        rw [ih2 i]
        split
        · exact Grid.rowlen_setStatus ..
        · rfl

theorem update_status_getPos (b : Board) (resp : FiringResponse)
    (hdims : GridDims b.positions)
    (hnodup : (resp.map Prod.fst).Nodup)
    (hkeys : ∀ c, lookupResp resp c ≠ none → InBounds c) :
    ∀ c, (b.update_status resp).positions.getPos c =
      (match lookupResp resp c with
        | some s =>
            if (b.positions.getPos c).status = Status.Space ∨
                (b.positions.getPos c).status = Status.Live ∨ s = Status.Kill
            then { b.positions.getPos c with status := s }
            else b.positions.getPos c
        | none => b.positions.getPos c) := by
  unfold Board.update_status
  induction resp generalizing b with
  | nil =>
      intro c
      rfl
  | cons e rest ih =>
      intro c
      rw [List.foldl_cons]
      simp only [List.map_cons, List.nodup_cons] at hnodup
      have hkrest : ∀ d, lookupResp rest d ≠ none → InBounds d := by
        intro d hd
        apply hkeys d
        rw [lookupResp_cons]
        split
        · simp
        · exact hd
      set b1 := (if (b.positions.getPos e.1).status == Status.Space ||
          (b.positions.getPos e.1).status == Status.Live || e.2 == Status.Kill then
          { b with positions := b.positions.setStatus e.1 e.2 } else b) with hb1
      have hb1dims : GridDims b1.positions := by
        rw [hb1]
        split
        · exact hdims.setStatus ..
        · exact hdims
      have hb1ne : ∀ d, d ≠ e.1 → b1.positions.getPos d = b.positions.getPos d := by
        intro d hd
        rw [hb1]
        split
        · exact Grid.getPos_setStatus_ne _ _ fun h => hd h.symm
        · rfl
      have := ih b1 hb1dims hnodup.2 hkrest c
      rw [this]
      by_cases hc : e.1 = c
      · subst hc
        have hrestnone : lookupResp rest e.1 = none := by
          by_contra hne
          exact hnodup.1 ((lookup_ne_none_iff rest e.1).mp hne)
        rw [hrestnone, lookupResp_cons, if_pos rfl]
        have hin := hdims.inb_lt (hkeys e.1 (by
          rw [lookupResp_cons, if_pos rfl]
          simp))
        dsimp only
        rw [hb1]
        have hcondb : (((b.positions.getPos e.1).status == Status.Space ||
              (b.positions.getPos e.1).status == Status.Live || e.2 == Status.Kill) = true) ↔
            ((b.positions.getPos e.1).status = Status.Space ∨
              (b.positions.getPos e.1).status = Status.Live ∨ e.2 = Status.Kill) := by
          simp [Bool.or_eq_true, beq_iff_eq, or_assoc]
        by_cases hcond : (b.positions.getPos e.1).status = Status.Space ∨
            (b.positions.getPos e.1).status = Status.Live ∨ e.2 = Status.Kill
        · rw [if_pos (hcondb.mpr hcond), if_pos hcond]
          show (Grid.setStatus b.positions e.1 e.2).getPos e.1 = _
          rw [Grid.getPos_setStatus, if_pos ⟨rfl, hin.1, hin.2⟩]
        · rw [if_neg fun hh => hcond (hcondb.mp hh), if_neg hcond]
      · rw [lookupResp_cons, if_neg hc, hb1ne c fun h => hc h.symm]

/-- The transitions the claim C5 is about: what `update_status` can do to
a cell of an opponent-tracking board over one `fire` exchange. -/
def OppTrans (a b : Status) : Prop :=
  a = b ∨ (a = Status.Space ∧ (b = Status.Hit ∨ b = Status.Miss ∨ b = Status.Kill)) ∨
    (a = Status.Hit ∧ b = Status.Kill)

/-- Relation between a defender's self board `S` and the attacker's
opponent-tracking board `V` mirroring it; maintained by every `fire`. -/
structure BoardPairInv (S V : Board) : Prop where
  vships : V.ships = []
  sdims : GridDims S.positions
  vdims : GridDims V.positions
  scoord : ∀ c, InBounds c → (S.positions.getPos c).coordinate = c
  sship : ∀ c, InBounds c →
      (((S.positions.getPos c).ship_id = none →
          (S.positions.getPos c).status = Status.Space ∨
          (S.positions.getPos c).status = Status.Miss) ∧
        ((S.positions.getPos c).ship_id ≠ none →
          (S.positions.getPos c).status = Status.Live ∨
          (S.positions.getPos c).status = Status.Hit ∨
          (S.positions.getPos c).status = Status.Kill))
  vnolive : ∀ c, InBounds c → (V.positions.getPos c).status ≠ Status.Live
  mirror : ∀ c, InBounds c →
      ((S.positions.getPos c).status = Status.Hit ∨
        (S.positions.getPos c).status = Status.Kill) →
      ((V.positions.getPos c).status = Status.Hit ∨
        (V.positions.getPos c).status = Status.Kill)
  missns : ∀ c, InBounds c → (V.positions.getPos c).status = Status.Miss →
      (S.positions.getPos c).ship_id = none

theorem pair_fire_step (S V : Board) (hp : BoardPairInv S V) (shots : List Coordinate)
    (hnd : shots.Nodup) (hinb : ∀ c ∈ shots, InBounds c) :
    BoardPairInv (S.take_fire shots).1
      (V.update_status (S.take_fire shots).2.1) ∧
    ∀ c, InBounds c →
      OppTrans (V.positions.getPos c).status
        ((V.update_status (S.take_fire shots).2.1).positions.getPos c).status := by
  have I := take_fire_inv S shots hp.sdims hp.scoord hnd hinb
  have hU := update_status_getPos V (S.take_fire shots).2.1 hp.vdims I.nodup I.keys_inb
  have hud := update_status_dims V (S.take_fire shots).2.1
  constructor
  · refine ⟨?_, ?_, ?_, ?_, ?_, ?_, ?_, ?_⟩
    · rw [update_status_ships]
      exact hp.vships
    · exact ⟨I.len.trans hp.sdims.1, fun i hi => (I.rowlen i).trans (hp.sdims.2 i hi)⟩
    · exact ⟨hud.1.trans hp.vdims.1, fun i hi => (hud.2 i).trans (hp.vdims.2 i hi)⟩
    · exact fun c hc => (I.meta c).2.trans (hp.scoord c hc)
    · -- sship
      intro c hc
      have hm := (I.meta c).1
      have ht := I.tstat c
      constructor
      · intro hnone
        rw [hm] at hnone
        rcases (hp.sship c hc).1 hnone with h | h <;>
          rcases ht with he | ⟨hl, -⟩ | ⟨-, hmiss⟩
        · rw [← he]
          exact Or.inl h
        · rw [h] at hl
          cases hl
        · exact Or.inr hmiss
        · rw [← he]
          exact Or.inr h
        · rw [h] at hl
          cases hl
        · exact Or.inr hmiss
      · intro hsome
        rw [hm] at hsome
        rcases (hp.sship c hc).2 hsome with h | h | h <;>
          rcases ht with he | ⟨-, hhk⟩ | ⟨hsm, -⟩
        · rw [← he]
          exact Or.inl h
        · rcases hhk with hh | hh
          · exact Or.inr (Or.inl hh)
          · exact Or.inr (Or.inr hh)
        · rcases hsm with hh | hh <;> rw [h] at hh <;> cases hh
        · rw [← he]
          exact Or.inr (Or.inl h)
        · rcases hhk with hh | hh
          · exact Or.inr (Or.inl hh)
          · exact Or.inr (Or.inr hh)
        · rcases hsm with hh | hh <;> rw [h] at hh <;> cases hh
        · rw [← he]
          exact Or.inr (Or.inr h)
        · rcases hhk with hh | hh
          · exact Or.inr (Or.inl hh)
          · exact Or.inr (Or.inr hh)
        · rcases hsm with hh | hh <;> rw [h] at hh <;> cases hh
    · -- vnolive
      intro c hc
      rw [hU c]
      rcases hl : lookupResp (S.take_fire shots).2.1 c with - | s
      · exact hp.vnolive c hc
      · simp only
        split
        · rcases I.val_mhk c s hl with h | h | h <;> simp [h]
        · exact hp.vnolive c hc
    · -- mirror
      intro c hc hS'
      rw [hU c]
      by_cases hSc : (S.positions.getPos c).status = Status.Hit ∨
          (S.positions.getPos c).status = Status.Kill
      · have hV := hp.mirror c hc hSc
        rcases hl : lookupResp (S.take_fire shots).2.1 c with - | s
        · exact hV
        · simp only
          split
          · rename_i hcnd
            rcases hcnd with hVc | hVc | hsK
            · rcases hV with hh | hh <;> rw [hVc] at hh <;> cases hh
            · exact absurd hVc (hp.vnolive c hc)
            · simp [hsK]
          · exact hV
      · have hne : (((S.take_fire shots).1).positions.getPos c).status ≠
            (S.positions.getPos c).status := by
          intro he
          exact hSc (he ▸ hS')
        rcases I.changed c hne hS' with h | h
        · rw [h]
          simp only
          split
          · exact Or.inl rfl
          · rename_i hcnd
            rcases hV : (V.positions.getPos c).status with - | - | - | - | -
            · exact absurd hV (hp.vnolive c hc)
            · have hnone := hp.missns c hc hV
              have := (hp.sship c hc).1 hnone
              have hLive := I.val_hit c h
              rcases this with hh | hh <;> rw [hh] at hLive <;> cases hLive
            · exact Or.inl rfl
            · exact Or.inr rfl
            · exact absurd (Or.inl hV) hcnd
        · rw [h]
          simp only
          split
          · exact Or.inr rfl
          · rename_i hcnd
            exact absurd (Or.inr (Or.inr trivial)) hcnd
    · -- missns
      intro c hc hMiss'
      rw [hU c] at hMiss'
      rw [(I.meta c).1]
      rcases hl : lookupResp (S.take_fire shots).2.1 c with - | s <;> rw [hl] at hMiss'
      · exact hp.missns c hc hMiss'
      · simp only at hMiss'
        split at hMiss'
        · rename_i hcnd
          have hsMiss : s = Status.Miss := hMiss'
          subst hsMiss
          have hSnl := I.val_miss c hl
          by_contra hsome
          have := (hp.sship c hc).2 hsome
          rcases this with h | h | h
          · exact hSnl h
          · have hV := hp.mirror c hc (Or.inl h)
            rcases hcnd with hVc | hVc | hsK
            · rcases hV with hh | hh <;> rw [hVc] at hh <;> cases hh
            · exact hp.vnolive c hc hVc
            · cases hsK
          · have hV := hp.mirror c hc (Or.inr h)
            rcases hcnd with hVc | hVc | hsK
            · rcases hV with hh | hh <;> rw [hVc] at hh <;> cases hh
            · exact hp.vnolive c hc hVc
            · cases hsK
        · exact hp.missns c hc hMiss'
  · -- transitions
    intro c hc
    rw [hU c]
    rcases hl : lookupResp (S.take_fire shots).2.1 c with - | s
    · exact Or.inl rfl
    · simp only
      split
      · rename_i hcnd
        have hs := I.val_mhk c s hl
        rcases hcnd with hVc | hVc | hsK
        · refine Or.inr (Or.inl ⟨hVc, ?_⟩)
          rcases hs with h | h | h
          · exact Or.inr (Or.inl h)
          · exact Or.inl h
          · exact Or.inr (Or.inr h)
        · exact absurd hVc (hp.vnolive c hc)
        · subst hsK
          rcases hV : (V.positions.getPos c).status with - | - | - | - | -
          · exact absurd hV (hp.vnolive c hc)
          · have hnone := hp.missns c hc hV
            have hkill := I.val_kill c hl
            exact absurd hnone hkill
          · exact Or.inr (Or.inr ⟨rfl, rfl⟩)
          · exact Or.inl rfl
          · exact Or.inr (Or.inl ⟨rfl, Or.inr (Or.inr rfl)⟩)
      · exact Or.inl rfl

theorem emptyGrid_getPos {c : Coordinate} (hc : InBounds c) :
    Grid.getPos emptyGrid c = Position.new c := by
  obtain ⟨c1, c2⟩ := c
  unfold Grid.getPos emptyGrid
  have h1 : c1 < (List.map
      (fun r => List.map (fun c => Position.new (r, c)) (List.range COLS))
      (List.range ROWS)).length := by
    simpa [ROWS] using hc.1
  rw [List.getD_eq_getElem _ _ h1]
  simp only [List.getElem_map, List.getElem_range]
  have h2 : c2 < (List.map (fun c => Position.new (c1, c)) (List.range COLS)).length := by
    simpa [COLS] using hc.2
  rw [List.getD_eq_getElem _ _ h2]
  simp

/-- What ship placement maintains on a self board under construction:
well-formed dimensions, correct coordinate back-references, and every cell
either still empty and unowned or drawn `Live` with an owner. -/
def PlacedInv (g : Grid) : Prop :=
  GridDims g ∧
  ∀ c, InBounds c →
    (Grid.getPos g c).coordinate = c ∧
    (((Grid.getPos g c).ship_id = none ∧ (Grid.getPos g c).status = Status.Space) ∨
      ∃ id, (Grid.getPos g c).ship_id = some id ∧
        (Grid.getPos g c).status = Status.Live)

theorem foldl_preserve {α : Type} {β : Type} {P : α → Prop} {f : α → β → α}
    (h : ∀ a b, P a → P (f a b)) :
    ∀ (l : List β) (a : α), P a → P (l.foldl f a) := by
  intro l
  induction l with
  | nil => exact fun a ha => ha
  | cons x xs ih => exact fun a ha => ih _ (h a x ha)

theorem setLivePos_preserves {g : Grid} (h : PlacedInv g) (d : Coordinate) (id : String) :
    PlacedInv (g.setPos d { g.getPos d with status := Status.Live, ship_id := some id }) := by
  obtain ⟨hdims, hic⟩ := h
  refine ⟨hdims.setPos .., fun c hc => ?_⟩
  rw [Grid.getPos_setPos]
  split
  · rename_i hcnd
    obtain ⟨hdc, hd1, hd2⟩ := hcnd
    have hdin : InBounds d := by
      refine ⟨hdims.1 ▸ hd1, ?_⟩
      rw [← hdims.2 d.1 (hdims.1 ▸ hd1)]
      exact hd2
    constructor
    · show (g.getPos d).coordinate = c
      rw [(hic d hdin).1, hdc]
    · exact Or.inr ⟨id, rfl, rfl⟩
  · exact hic c hc

theorem draw_preserves (s : Ship) (a : Coordinate) {g : Grid} (h : PlacedInv g) :
    PlacedInv (s.draw g a).1 := by
  unfold Ship.draw
  split
  · refine foldl_preserve (P := fun acc : Grid × Bool => PlacedInv acc.1)
      (fun acc i hacc => ?_) (List.finRange 3) (g, false) h
    refine foldl_preserve (P := fun acc : Grid × Bool => PlacedInv acc.1)
      (fun acc2 j hacc2 => ?_) (List.finRange 3) acc hacc
    dsimp only
    split
    · exact setLivePos_preserves hacc2 _ _
    · exact hacc2
  · exact h

theorem placeAll_preserves : ∀ (specs : List (Ship × Coordinate)) (g : Grid),
    PlacedInv g → PlacedInv (placeAll specs g)
  | [], _, h => h
  | (s, a) :: rest, _g, h => placeAll_preserves rest _ (draw_preserves s a h)

theorem emptyGrid_placed : PlacedInv emptyGrid := by
  refine ⟨gridDims_emptyGrid, fun c hc => ?_⟩
  rw [emptyGrid_getPos hc]
  exact ⟨rfl, Or.inl ⟨rfl, rfl⟩⟩

/-- A freshly constructed self board and a fresh opponent-tracking board
satisfy the pair invariant. -/
theorem initial_pair {S V : Board} (hS : InitialSelfBoard S)
    (hV : InitialOpponentBoard V) : BoardPairInv S V := by
  obtain ⟨specs, -, -, -, hSeq⟩ := hS
  subst hSeq
  rw [InitialOpponentBoard] at hV
  subst hV
  have hP := placeAll_preserves specs emptyGrid emptyGrid_placed
  refine ⟨rfl, hP.1, gridDims_emptyGrid, fun c hc => (hP.2 c hc).1, fun c hc => ?_,
    fun c hc => ?_, fun c hc hhk => ?_, fun c hc hm => ?_⟩
  · rcases (hP.2 c hc).2 with ⟨hn, hst⟩ | ⟨id, hsome, hst⟩
    · exact ⟨fun _ => Or.inl hst, fun hne => absurd hn hne⟩
    · refine ⟨fun hnone => ?_, fun _ => Or.inl hst⟩
      rw [hsome] at hnone
      cases hnone
  · show (Grid.getPos emptyGrid c).status ≠ Status.Live
    rw [emptyGrid_getPos hc]
    intro hh
    cases hh
  · rcases (hP.2 c hc).2 with ⟨-, hst⟩ | ⟨-, -, hst⟩ <;>
      rcases hhk with hh | hh <;> rw [hst] at hh <;> cases hh
  · exfalso
    have : (Grid.getPos emptyGrid c).status = Status.Miss := hm
    rw [emptyGrid_getPos hc] at this
    cases this

/-- The global game invariant maintained by `fire`. -/
def GameInv (g : Game) : Prop :=
  g.turn ≤ 1 ∧
  BoardPairInv g.players.1.boards.1 g.players.2.boards.2 ∧
  BoardPairInv g.players.2.boards.1 g.players.1.boards.2

theorem fire_boards (g : Game) (shots : List Coordinate) (bot : Bool) :
    (g.turn = 0 →
      (g.fire shots bot).players.1.boards.1 = g.players.1.boards.1 ∧
      (g.fire shots bot).players.1.boards.2 =
        g.players.1.boards.2.update_status (g.players.2.boards.1.take_fire shots).2.1 ∧
      (g.fire shots bot).players.2.boards.1 = (g.players.2.boards.1.take_fire shots).1 ∧
      (g.fire shots bot).players.2.boards.2 = g.players.2.boards.2) ∧
    (g.turn = 1 →
      (g.fire shots bot).players.2.boards.1 = g.players.2.boards.1 ∧
      (g.fire shots bot).players.2.boards.2 =
        g.players.2.boards.2.update_status (g.players.1.boards.1.take_fire shots).2.1 ∧
      (g.fire shots bot).players.1.boards.1 = (g.players.1.boards.1.take_fire shots).1 ∧
      (g.fire shots bot).players.1.boards.2 = g.players.1.boards.2) ∧
    (g.fire shots bot).turn = 1 - g.turn := by
  refine ⟨fun h0 => ?_, fun h1 => ?_, ?_⟩
  · refine ⟨?_, ?_, ?_, ?_⟩ <;>
      simp [Game.fire, Game.playerByTurn, Game.setPlayerByTurn, Player.player_board, h0]
  · refine ⟨?_, ?_, ?_, ?_⟩ <;>
      simp [Game.fire, Game.playerByTurn, Game.setPlayerByTurn, Player.player_board, h1]
  · simp [Game.fire]

theorem fire_preserves_GameInv (g : Game) (hg : GameInv g) (shots : List Coordinate)
    (bot : Bool) (hs : IsShotSet shots) (hinb : ∀ c ∈ shots, InBounds c) :
    GameInv (g.fire shots bot) ∧
    (∀ c, InBounds c →
      OppTrans (g.players.1.boards.2.positions.getPos c).status
        ((g.fire shots bot).players.1.boards.2.positions.getPos c).status ∧
      OppTrans (g.players.2.boards.2.positions.getPos c).status
        ((g.fire shots bot).players.2.boards.2.positions.getPos c).status) := by
  obtain ⟨ht, hp1, hp2⟩ := hg
  have hnd := hs.nodup
  obtain ⟨hf0, hf1, hturn⟩ := fire_boards g shots bot
  rcases Nat.le_one_iff_eq_zero_or_eq_one.mp ht with h | h
  · obtain ⟨e1, e2, e3, e4⟩ := hf0 h
    obtain ⟨hp2', htrans⟩ := pair_fire_step _ _ hp2 shots hnd hinb
    refine ⟨⟨by rw [hturn]; omega, ?_, ?_⟩, fun c hc => ?_⟩
    · rw [e1, e4]
      exact hp1
    · rw [e3, e2]
      exact hp2'
    · constructor
      · rw [e2]
        exact htrans c hc
      · rw [e4]
        exact Or.inl rfl
  · obtain ⟨e1, e2, e3, e4⟩ := hf1 h
    obtain ⟨hp1', htrans⟩ := pair_fire_step _ _ hp1 shots hnd hinb
    refine ⟨⟨by rw [hturn]; omega, ?_, ?_⟩, fun c hc => ?_⟩
    · rw [e3, e2]
      exact hp1'
    · rw [e1, e4]
      exact hp2
    · constructor
      · rw [e4]
        exact Or.inl rfl
      · rw [e2]
        exact htrans c hc

theorem reachable_GameInv (g : Game) (hg : Reachable g) : GameInv g := by
  induction hg with
  | init rule diff p0 p1 h0 h1 =>
      obtain ⟨-, hs0, hv0⟩ := h0
      obtain ⟨-, hs1, hv1⟩ := h1
      exact ⟨Nat.zero_le 1, initial_pair hs0 hv1, initial_pair hs1 hv0⟩
  | step g shots bot hr hs hinb ih =>
      exact (fire_preserves_GameInv g ih shots bot hs hinb).1

/-- C5 counterexample: from the reachable fresh game `exGame0`, the
human's volley `{(3,1),(4,1),(5,1)}` sinks the bot's I ship, and the
mirrored kill moves the human's opponent-tracking cell `(3,1)` from
`Space` directly to `Kill` — a transition the claim does not allow
(it lists only `Space → Hit` and `Space → Miss`). -/
theorem c5_counterexample :
    Reachable exGame0 ∧
    IsShotSet [(3, 1), (4, 1), (5, 1)] ∧
    (∀ c ∈ [((3 : Nat), (1 : Nat)), (4, 1), (5, 1)], InBounds c) ∧
    exGame1 = exGame0.fire [(3, 1), (4, 1), (5, 1)] false ∧
    ((exGame0.players.1.boards.2).positions.getPos (3, 1)).status = Status.Space ∧
    ((exGame1.players.1.boards.2).positions.getPos (3, 1)).status = Status.Kill ∧
    Status.Kill ≠ Status.Hit ∧ Status.Kill ≠ Status.Miss :=
  ⟨exGame0_reachable, by decide, by decide, rfl, by decide, by decide, by decide, by decide⟩

/-- C5 (amended): in every game state reachable from `Game::new` via
`fire`/`bot_fire`, each player's opponent-tracking board holds no ships
and none of its cells is ever `Live`; and across any further `fire` call
each of its cells' stored status either stays unchanged or moves
`Space → Hit`, `Space → Miss`, `Space → Kill`, or `Hit → Kill`
(`update_status` escalates to `Kill` every cell of a sunk ship, which the
original claim's `Space → {Hit, Miss}`-only transition list omits). -/
theorem c5_amended_opponent_board_invariant (g : Game) (hg : Reachable g)
    (shots : List Coordinate) (bot : Bool) (hs : IsShotSet shots)
    (hinb : ∀ c ∈ shots, InBounds c) :
    (g.players.1.boards.2.ships = [] ∧ g.players.2.boards.2.ships = []) ∧
    (∀ c, InBounds c →
      (g.players.1.boards.2.positions.getPos c).status ≠ Status.Live ∧
      (g.players.2.boards.2.positions.getPos c).status ≠ Status.Live) ∧
    (∀ c, InBounds c →
      OppTrans (g.players.1.boards.2.positions.getPos c).status
        ((g.fire shots bot).players.1.boards.2.positions.getPos c).status ∧
      OppTrans (g.players.2.boards.2.positions.getPos c).status
        ((g.fire shots bot).players.2.boards.2.positions.getPos c).status) := by
  obtain ⟨ht, hp1, hp2⟩ := reachable_GameInv g hg
  exact ⟨⟨hp2.vships, hp1.vships⟩,
    fun c hc => ⟨hp2.vnolive c hc, hp1.vnolive c hc⟩,
    (fire_preserves_GameInv g ⟨ht, hp1, hp2⟩ shots bot hs hinb).2⟩

/-- Witness for the amended C5 at the concrete reachable game and a
concrete cell. -/
theorem c5_amended_witness :
    exGame0.players.1.boards.2.ships = [] ∧
    (exGame0.players.1.boards.2.positions.getPos (3, 1)).status ≠ Status.Live ∧
    OppTrans ((exGame0.players.1.boards.2).positions.getPos (3, 1)).status
      (((exGame0.fire [(3, 1), (4, 1), (5, 1)] false).players.1.boards.2).positions.getPos
        (3, 1)).status :=
  ⟨(c5_amended_opponent_board_invariant exGame0 exGame0_reachable
      [(3, 1), (4, 1), (5, 1)] false (by decide) (by decide)).1.1,
    ((c5_amended_opponent_board_invariant exGame0 exGame0_reachable
      [(3, 1), (4, 1), (5, 1)] false (by decide) (by decide)).2.1 (3, 1) (by decide)).1,
    ((c5_amended_opponent_board_invariant exGame0 exGame0_reachable
      [(3, 1), (4, 1), (5, 1)] false (by decide) (by decide)).2.2 (3, 1) (by decide)).1⟩

end Battleship
